import Mathlib

/-!
Hypothesis verification (`corelib/src/VerifyHypotheses.cpp`).

A shallow embedding of the epipolar-geometry hypothesis verifier of RTAB-Map:
the three pairing policies over word maps (`findPairsDirect`, `findPairsOne`,
`findPairsAll`), the deduplicating inlier count of `doEpipolarGeometry`, and the
`verify` entry point.

Conventions of the embedding.
* `float` / `double` values are only stored, copied and compared (`==`, and `>=` in
  `HypVerificatorSim::verify`) by this code; they are represented by integers
  (`Scalar`). NaN is outside the model.
* `int` counters are unbounded integers (no container here reaches `2^31` entries).
* Calls that only feed the debug log (`ULOGGER_DEBUG`, `ULOGGER_FATAL`, `UTimer`,
  `getTotalSimilarities`, the residual `total`) have no effect on the results and
  are left out.
* An iterator into a container is the list of entries from its position to the
  end; `end()` is the empty list.
* A read past the end of a container (`status[i]`, `uValueAt`) is undefined in
  C++; the embedding returns `none` there.
-/

namespace rtabmap

/-- Floating-point values, only stored and compared. -/
abbrev Scalar := Int

/-- The type `cv::Point2f`, also used for `std::pair<float, float>` positions. -/
structure Point2f where
  x : Scalar
  y : Scalar
deriving DecidableEq, Repr

/-- The type `cv::KeyPoint`; only `pt` is read by the verifier. -/
structure KeyPoint where
  pt : Point2f
  size : Scalar := 0
  angle : Scalar := -1
  response : Scalar := 0
  octave : Int := 0
  class_id : Int := -1
deriving DecidableEq, Repr

/-- The type `std::multimap<int, cv::KeyPoint>`: the entries in iteration order,
which is non-decreasing in the key. -/
structure Multimap where
  entries : List (Int × KeyPoint)
  sorted : entries.Pairwise (fun a b => a.1 ≤ b.1)

/-- The member `std::multimap::size`. -/
def Multimap.size (mm : Multimap) : Nat := mm.entries.length

/-- The member `std::multimap::find`: an iterator to the first entry with key `k`,
`end()` when there is none. -/
def Multimap.find (mm : Multimap) (k : Int) : List (Int × KeyPoint) :=
  match mm.entries.dropWhile (fun e => decide (e.1 < k)) with
  | [] => []
  | e :: rest => if e.1 = k then e :: rest else []

/-- The member `std::multimap::equal_range`, as the entries between `lower_bound`
and `upper_bound` of `k`. -/
def Multimap.equal_range (mm : Multimap) (k : Int) : List (Int × KeyPoint) :=
  (mm.entries.dropWhile (fun e => decide (e.1 < k))).takeWhile (fun e => decide (e.1 ≤ k))

/-- Loop of `uUniqueKeys`: `last` is the key appended last, if any. -/
def uUniqueKeysLoop : Option Int → List (Int × KeyPoint) → List Int
  | _, [] => []
  | last, e :: rest =>
    if last = some e.1 then uUniqueKeysLoop last rest
    else e.1 :: uUniqueKeysLoop (some e.1) rest

/-- Modelled from the spec: `uUniqueKeys` of the UtiLite header, which is not among
the sources. The word ids present in the map, each once, in ascending order
(the iteration order of the map): a key is appended when it differs from the key
appended last. -/
def uUniqueKeys (mm : Multimap) : List Int := uUniqueKeysLoop none mm.entries

/-- Modelled from the spec: `uValues` of the UtiLite header, which is not among
the sources. The list of keypoints stored under word id `key`, in map order
(the values of `equal_range(key)`). -/
def uValues (mm : Multimap) (key : Int) : List KeyPoint :=
  (mm.equal_range key).map Prod.snd

/-- Modelled from the spec: `uContains` of the UtiLite header, which is not among
the sources. Whether the position tuple is already in the list (`std::find` with
`==`). -/
def uContains (l : List (Scalar × Scalar)) (v : Scalar × Scalar) : Bool :=
  l.any (fun w => decide (w = v))

/-- Modelled from the spec: `uValueAt` of the UtiLite header, which is not among
the sources. The element at position `pos` of a list; `none` past the end. -/
def uValueAt (l : List Int) (pos : Nat) : Option Int := l.get? pos

/-- The out-parameters `pairs` and `pairsId` and the returned `int` of the three
`findPairs*` functions. -/
structure PairsOut where
  realPairsCount : Int
  pairs : List (KeyPoint × KeyPoint)
  pairsId : List Int
deriving DecidableEq, Repr

/-- The `while` loop of `findPairsDirect` for word id `i`, on the two iterators. -/
def findPairsDirectWhile (i : Int) :
    List (Int × KeyPoint) → List (Int × KeyPoint) → PairsOut → PairsOut
  | a :: iterA, b :: iterB, st =>
    if a.1 = b.1 ∧ a.1 = i then
      findPairsDirectWhile i iterA iterB
        { pairsId := st.pairsId ++ [i],
          pairs := st.pairs ++ [(a.2, b.2)],
          realPairsCount := st.realPairsCount + 1 }
    else st
  | _, _, st => st

/-- The function `HypVerificatorEpipolarGeo::findPairsDirect`. `pairs` is cleared
on entry, `pairsId` is appended to. -/
def findPairsDirect (wordsA wordsB : Multimap)
    (_pairs : List (KeyPoint × KeyPoint)) (pairsId : List Int) : PairsOut :=
  (uUniqueKeys wordsA).foldl
    (fun st i => findPairsDirectWhile i (wordsA.find i) (wordsB.find i) st)
    { pairs := [], pairsId := pairsId, realPairsCount := 0 }

/-- The body of the `for` loop of `findPairsOne` for word id `i`. -/
def findPairsOneBody (wordsA wordsB : Multimap) (st : PairsOut) (i : Int) : PairsOut :=
  let ptsA := uValues wordsA i
  let ptsB := uValues wordsB i
  if h : ptsA.length = 1 ∧ ptsB.length = 1 then
    { pairs := st.pairs ++
        [(ptsA.head (List.ne_nil_of_length_pos (by omega)),
          ptsB.head (List.ne_nil_of_length_pos (by omega)))],
      pairsId := st.pairsId ++ [i],
      realPairsCount := st.realPairsCount + 1 }
  else if ptsA.length > 1 ∧ ptsB.length > 1 then
    { st with
      realPairsCount := st.realPairsCount +
        ((if ptsA.length > ptsB.length then ptsB.length else ptsA.length : Nat) : Int) }
  else st

/-- The function `HypVerificatorEpipolarGeo::findPairsOne`. `pairs` is cleared on
entry, `pairsId` is appended to. -/
def findPairsOne (wordsA wordsB : Multimap)
    (_pairs : List (KeyPoint × KeyPoint)) (pairsId : List Int) : PairsOut :=
  (uUniqueKeys wordsA).foldl (findPairsOneBody wordsA wordsB)
    { pairs := [], pairsId := pairsId, realPairsCount := 0 }

/-- The body of the outer `for` loop of `findPairsAll` for word id `i`. -/
def findPairsAllBody (wordsA wordsB : Multimap) (st : PairsOut) (i : Int) : PairsOut :=
  let ptsA := uValues wordsA i
  let ptsB := uValues wordsB i
  let st1 : PairsOut :=
    { st with
      realPairsCount := st.realPairsCount +
        ((if ptsA.length > ptsB.length then ptsB.length else ptsA.length : Nat) : Int) }
  ptsA.foldl
    (fun st2 j =>
      ptsB.foldl
        (fun st3 k =>
          { st3 with pairsId := st3.pairsId ++ [i], pairs := st3.pairs ++ [(j, k)] })
        st2)
    st1

/-- The function `HypVerificatorEpipolarGeo::findPairsAll`. `pairs` is cleared on
entry, `pairsId` is appended to. -/
def findPairsAll (wordsA wordsB : Multimap)
    (_pairs : List (KeyPoint × KeyPoint)) (pairsId : List Int) : PairsOut :=
  (uUniqueKeys wordsA).foldl (findPairsAllBody wordsA wordsB)
    { pairs := [], pairsId := pairsId, realPairsCount := 0 }

/-- The type `cv::Mat` as returned by the estimator: its dimensions and its
entries `at<double>(r, c)`. -/
structure Mat where
  rows : Int
  cols : Int
  data : Nat → Nat → Scalar

/-- What `cv::findFundamentalMat` hands back: the model matrix and the
`cv::vector<uchar> status` of inlier flags (a flag is set when it is not `0`). -/
structure FundamentalMatResult where
  fundamentalMatrix : Mat
  status : List Nat

/-- The external estimator `cv::findFundamentalMat(points1, points2, status,
CV_FM_RANSAC, param1, param2)`, taken as a parameter of the verifier. -/
abbrev Estimator := List Point2f → List Point2f → Scalar → Scalar → FundamentalMatResult

/-- The configuration fields of `HypVerificatorEpipolarGeo`. -/
structure HypVerificatorEpipolarGeo where
  matchCountMinAccepted : Int
  ransacParam1 : Scalar
  ransacParam2 : Scalar
deriving DecidableEq, Repr

/-- The class `KeypointSignature`, as far as the verifier reads it. -/
structure KeypointSignature where
  id : Int
  words : Multimap

/-- An observation behind a `const Signature *`: either a signature without
keypoint data or a `KeypointSignature`. -/
inductive Signature where
  | plain (id : Int)
  | keypoint (ss : KeypointSignature)

/-- The cast `dynamic_cast<const KeypointSignature *>` of a possibly null pointer. -/
def dynamicCastKeypoint : Option Signature → Option KeypointSignature
  | some (Signature.keypoint ss) => some ss
  | _ => none

/-- The test `fundMatFound` of `doEpipolarGeometry`: a 3x3 matrix with a non-zero
entry. -/
def fundMatFound (f : Mat) : Bool :=
  decide (f.cols = 3 ∧ f.rows = 3 ∧
    (f.data 0 0 ≠ 0 ∨ f.data 0 1 ≠ 0 ∨ f.data 0 2 ≠ 0 ∨
     f.data 1 0 ≠ 0 ∨ f.data 1 1 ≠ 0 ∨ f.data 1 2 ≠ 0 ∨
     f.data 2 0 ≠ 0 ∨ f.data 2 1 ≠ 0 ∨ f.data 2 2 ≠ 0))

/-- The local variables of the counting loop of `doEpipolarGeometry`. -/
structure LoopState where
  inliers : List (KeyPoint × KeyPoint)
  inliersId : List Int
  goodCount : Int
  ptsAddedA : List (Scalar × Scalar)
  ptsAddedB : List (Scalar × Scalar)
  i : Nat
deriving DecidableEq, Repr

/-- The loop variables before the first iteration. -/
def LoopState.init : LoopState :=
  { inliers := [], inliersId := [], goodCount := 0, ptsAddedA := [], ptsAddedB := [], i := 0 }

/-- One iteration of the counting loop of `doEpipolarGeometry` on the
correspondence `p`, with the closing `++i`. -/
def loopBody (status : List Nat) (pairsId : List Int) (st : LoopState)
    (p : KeyPoint × KeyPoint) : Option LoopState :=
  if uContains st.ptsAddedA (p.1.pt.x, p.1.pt.y) then
    some { st with i := st.i + 1 }
  else if uContains st.ptsAddedB (p.2.pt.x, p.2.pt.y) then
    some { st with i := st.i + 1 }
  else
    let ptsAddedA := st.ptsAddedA ++ [(p.1.pt.x, p.1.pt.y)]
    let ptsAddedB := st.ptsAddedB ++ [(p.2.pt.x, p.2.pt.y)]
    match status.get? st.i with
    | none => none
    | some flag =>
      if flag ≠ 0 then
        match uValueAt pairsId st.i with
        | none => none
        | some wordId =>
          some { inliers := st.inliers ++ [p],
                 inliersId := st.inliersId ++ [wordId],
                 goodCount := st.goodCount + 1,
                 ptsAddedA := ptsAddedA,
                 ptsAddedB := ptsAddedB,
                 i := st.i + 1 }
      else
        some { st with ptsAddedA := ptsAddedA, ptsAddedB := ptsAddedB, i := st.i + 1 }

/-- The counting loop of `doEpipolarGeometry` over `pairs`, from the state `st`. -/
def countingLoop (status : List Nat) (pairsId : List Int) :
    List (KeyPoint × KeyPoint) → LoopState → Option LoopState
  | [], st => some st
  | p :: rest, st =>
    match loopBody status pairsId st p with
    | none => none
    | some st1 => countingLoop status pairsId rest st1

/-- The function `HypVerificatorEpipolarGeo::doEpipolarGeometry`, the estimator
being a parameter. -/
def doEpipolarGeometry (self : HypVerificatorEpipolarGeo) (findFundamentalMat : Estimator)
    (ssA ssB : Option KeypointSignature) : Option Bool :=
  match ssA, ssB with
  | some a, some b =>
    let out := findPairsOne a.words b.words [] []
    let pairs := out.pairs
    let pairsId := out.pairsId
    let pairsCount : Int := pairs.length
    if pairsCount < self.matchCountMinAccepted then
      some false
    else
      let points1 := pairs.map (fun p => p.1.pt)
      let points2 := pairs.map (fun p => p.2.pt)
      let res := findFundamentalMat points1 points2 self.ransacParam1 self.ransacParam2
      if fundMatFound res.fundamentalMatrix then
        match countingLoop res.status pairsId pairs LoopState.init with
        | none => none
        | some st =>
          if st.goodCount < self.matchCountMinAccepted then some false else some true
      else
        some false
  | _, _ => some false

/-- The function `HypVerificatorEpipolarGeo::verify`. -/
def verify (self : HypVerificatorEpipolarGeo) (findFundamentalMat : Estimator)
    (ref hyp : Option Signature) : Option Bool :=
  match dynamicCastKeypoint ref, dynamicCastKeypoint hyp with
  | some ssRef, some ssHyp => doEpipolarGeometry self findFundamentalMat (some ssHyp) (some ssRef)
  | _, _ => some false

/-- The accepted inlier count in the words of the specification (section 4.3,
step 6): walk the correspondences in order with their inlier flags, keeping the
A-positions and B-positions already used; a correspondence whose A-point or
B-point is already used is skipped; a surviving one marks both its end points
used and is counted when its flag is set. -/
def acceptedInlierCount :
    List (KeyPoint × KeyPoint) → List Nat → List Point2f → List Point2f → Nat
  | [], _, _, _ => 0
  | _ :: _, [], _, _ => 0
  | p :: rest, flag :: flags, usedA, usedB =>
    if p.1.pt ∈ usedA ∨ p.2.pt ∈ usedB then
      acceptedInlierCount rest flags usedA usedB
    else
      (if flag ≠ 0 then 1 else 0) +
        acceptedInlierCount rest flags (p.1.pt :: usedA) (p.2.pt :: usedB)

/-- The correspondences handed to the estimator by `doEpipolarGeometry(ssA, ssB)`:
the `pairs` of `findPairsOne` on the two word maps. -/
def correspondences (ssA ssB : KeypointSignature) : List (KeyPoint × KeyPoint) :=
  (findPairsOne ssA.words ssB.words [] []).pairs

/-- What the estimator returns inside `doEpipolarGeometry(ssA, ssB)`. -/
def estimatorResult (self : HypVerificatorEpipolarGeo) (findFundamentalMat : Estimator)
    (ssA ssB : KeypointSignature) : FundamentalMatResult :=
  findFundamentalMat ((correspondences ssA ssB).map (fun p => p.1.pt))
    ((correspondences ssA ssB).map (fun p => p.2.pt)) self.ransacParam1 self.ransacParam2

/-- The accepted inlier count of `doEpipolarGeometry(ssA, ssB)` in the words of the
specification. -/
def acceptedInliers (self : HypVerificatorEpipolarGeo) (findFundamentalMat : Estimator)
    (ssA ssB : KeypointSignature) : Nat :=
  acceptedInlierCount (correspondences ssA ssB)
    (estimatorResult self findFundamentalMat ssA ssB).status [] []

/-- The loop variables of the counting loop after its first `n` iterations. -/
def stateAfter (status : List Nat) (pairsId : List Int) (pairs : List (KeyPoint × KeyPoint))
    (n : Nat) : Option LoopState :=
  countingLoop status pairsId (pairs.take n) LoopState.init

/-- Whether the correspondence at position `n` survives the deduplication, that is
reaches the last branch of the loop body: neither its A-point nor its B-point has
been recorded before. -/
def survivesAt (status : List Nat) (pairsId : List Int) (pairs : List (KeyPoint × KeyPoint))
    (n : Nat) : Bool :=
  match stateAfter status pairsId pairs n, pairs.get? n with
  | some st, some p =>
    !uContains st.ptsAddedA (p.1.pt.x, p.1.pt.y) && !uContains st.ptsAddedB (p.2.pt.x, p.2.pt.y)
  | _, _ => false

/-- The keypoints stored under word id `id` in a word map, in map order. -/
def keypointsOf (mm : Multimap) (id : Int) : List KeyPoint :=
  (mm.entries.filter (fun e => decide (e.1 = id))).map Prod.snd

/-- The word ids occurring in either of two word maps, each once. -/
def wordIds (wordsA wordsB : Multimap) : List Int :=
  (wordsA.entries.map Prod.fst ++ wordsB.entries.map Prod.fst).dedup

/-- The sum over the word ids of `min(|A_id|, |B_id|)`. -/
def sumMinCounts (wordsA wordsB : Multimap) : Int :=
  ((wordIds wordsA wordsB).map
    (fun id => ((min (keypointsOf wordsA id).length (keypointsOf wordsB id).length : Nat) : Int))).sum

/-- What one iteration of `findPairsOne` on word id `i` appends: the correspondence
with its word id when both sides hold exactly one keypoint. -/
def oneEmit (wordsA wordsB : Multimap) (i : Int) : List (Int × KeyPoint × KeyPoint) :=
  match uValues wordsA i, uValues wordsB i with
  | [a], [b] => [(i, (a, b))]
  | _, _ => []

/-- What one iteration of `findPairsOne` on word id `i` adds to `realPairsCount`. -/
def oneCount (wordsA wordsB : Multimap) (i : Int) : Int :=
  if (uValues wordsA i).length = 1 ∧ (uValues wordsB i).length = 1 then 1
  else if (uValues wordsA i).length > 1 ∧ (uValues wordsB i).length > 1 then
    ((min (uValues wordsA i).length (uValues wordsB i).length : Nat) : Int)
  else 0

/-- A keypoint at position `(x, y)`. -/
def keyPointAt (x y : Int) : KeyPoint := { pt := { x := x, y := y } }

/-- The word map `a = [1 2 3 4 6 6]` of the comments above the `findPairs*`
functions, every entry with a keypoint of its own. -/
def exampleA : Multimap :=
  { entries := [(1, keyPointAt 1 0), (2, keyPointAt 2 0), (3, keyPointAt 3 0),
      (4, keyPointAt 4 0), (6, keyPointAt 6 0), (6, keyPointAt 6 1)],
    sorted := by decide }

/-- The word map `b = [1 1 2 4 5 6 6]` of the comments above the `findPairs*`
functions, every entry with a keypoint of its own. -/
def exampleB : Multimap :=
  { entries := [(1, keyPointAt 11 0), (1, keyPointAt 11 1), (2, keyPointAt 12 0),
      (4, keyPointAt 14 0), (5, keyPointAt 15 0), (6, keyPointAt 16 0), (6, keyPointAt 16 1)],
    sorted := by decide }

/-- A 3x3 matrix with ones on the diagonal. -/
def exampleMat : Mat :=
  { rows := 3, cols := 3, data := fun r c => if r = c then 1 else 0 }

/-- The 3x3 matrix whose entries are all zero. -/
def zeroMat : Mat :=
  { rows := 3, cols := 3, data := fun _ _ => 0 }

/-- An estimator that finds `exampleMat` and flags every correspondence. -/
def exampleEstimator : Estimator :=
  fun points1 _ _ _ => { fundamentalMatrix := exampleMat, status := points1.map (fun _ => 1) }

/-- An estimator that finds no model. -/
def failingEstimator : Estimator :=
  fun points1 _ _ _ => { fundamentalMatrix := zeroMat, status := points1.map (fun _ => 1) }

/-- A configuration with a minimum match count of `n`. -/
def exampleVerifier (n : Int) : HypVerificatorEpipolarGeo :=
  { matchCountMinAccepted := n, ransacParam1 := 3, ransacParam2 := 1 }

/-- The signature with id `1` and word map `exampleA`. -/
def exampleSignatureA : KeypointSignature := { id := 1, words := exampleA }

/-- The signature with id `2` and word map `exampleB`. -/
def exampleSignatureB : KeypointSignature := { id := 2, words := exampleB }

/-- Three correspondences: the second shares its B-point with the first, the third
shares its A-point with the second. -/
def dedupExamplePairs : List (KeyPoint × KeyPoint) :=
  [(keyPointAt 1 0, keyPointAt 11 0), (keyPointAt 2 0, keyPointAt 11 0),
   (keyPointAt 2 0, keyPointAt 12 0)]

/-- What the `while` loop of `findPairsDirect` on word id `i` appends: the keypoints
of `i` on both sides walked in lock-step, each pair with the word id. -/
def directEmit (wordsA wordsB : Multimap) (i : Int) : List (Int × KeyPoint × KeyPoint) :=
  ((uValues wordsA i).zip (uValues wordsB i)).map (fun p => (i, p))

/-- What one iteration of `findPairsAll` on word id `i` appends: every keypoint of
`i` in A with every keypoint of `i` in B, A-major, each pair with the word id. -/
def allEmit (wordsA wordsB : Multimap) (i : Int) : List (Int × KeyPoint × KeyPoint) :=
  ((uValues wordsA i).flatMap (fun a => (uValues wordsB i).map (fun b => (a, b)))).map
    (fun p => (i, p))

/-- What one iteration of `findPairsAll` on word id `i` adds to `realPairsCount`. -/
def allCount (wordsA wordsB : Multimap) (i : Int) : Int :=
  ((min (uValues wordsA i).length (uValues wordsB i).length : Nat) : Int)

/-- The function `HypVerificator::verify`. `Signature::isBadSignature`, whose class
is not among the sources, is a parameter. -/
def HypVerificator.verify (isBadSignature : Signature → Bool)
    (ref hyp : Option Signature) : Bool :=
  match ref, hyp with
  | some r, some h => !isBadSignature r && !isBadSignature h
  | _, _ => false

/-- The configuration field of `HypVerificatorSim`. -/
structure HypVerificatorSim where
  similarity : Scalar

/-- The function `HypVerificatorSim::verify`. `Signature::compareTo`, whose class is
not among the sources, is a parameter: `compareTo r h` is `r->compareTo(h)`. -/
def HypVerificatorSim.verify (self : HypVerificatorSim)
    (compareTo : Signature → Signature → Scalar) (ref hyp : Option Signature) : Bool :=
  match ref, hyp with
  | some r, some h => decide (compareTo r h ≥ self.similarity)
  | _, _ => false

/-- The type `ParametersMap`, a `std::map<std::string, std::string>`, as the list of
its entries. -/
abbrev ParametersMap := List (String × String)

/-- The member `find` of `ParametersMap`: the value stored under `key`, `none` for
`end()`. -/
def ParametersMap.find (parameters : ParametersMap) (key : String) : Option String :=
  List.lookup key parameters

/-- The key names `Parameters::kVhEpMatchCountMin()`, `Parameters::kVhEpRansacParam1()`
and `Parameters::kVhEpRansacParam2()`, declared in a header that is not among the
sources. -/
structure ParameterKeys where
  kVhEpMatchCountMin : String
  kVhEpRansacParam1 : String
  kVhEpRansacParam2 : String

/-- The function `HypVerificatorEpipolarGeo::parseParameters`; the C library
functions `atoi` and `atof` are parameters. The call of the empty
`HypVerificator::parseParameters` at its end has no effect. -/
def parseParameters (keys : ParameterKeys) (atoi : String → Int) (atof : String → Scalar)
    (self : HypVerificatorEpipolarGeo) (parameters : ParametersMap) :
    HypVerificatorEpipolarGeo :=
  let self1 : HypVerificatorEpipolarGeo :=
    match parameters.find keys.kVhEpMatchCountMin with
    | some v => { self with matchCountMinAccepted := atoi v }
    | none => self
  let self2 : HypVerificatorEpipolarGeo :=
    match parameters.find keys.kVhEpRansacParam1 with
    | some v => { self1 with ransacParam1 := atof v }
    | none => self1
  match parameters.find keys.kVhEpRansacParam2 with
  | some v => { self2 with ransacParam2 := atof v }
  | none => self2

/-- Whether `key` is one of the three keys read by `parseParameters`. -/
def ParameterKeys.reads (keys : ParameterKeys) (key : String) : Bool :=
  key == keys.kVhEpMatchCountMin || key == keys.kVhEpRansacParam1 ||
    key == keys.kVhEpRansacParam2

/-- The key names used in the examples. -/
def exampleKeys : ParameterKeys :=
  { kVhEpMatchCountMin := "VhEp/MatchCountMin",
    kVhEpRansacParam1 := "VhEp/RansacParam1",
    kVhEpRansacParam2 := "VhEp/RansacParam2" }

/-- A stand-in for `atoi` and `atof` in the examples: the length of the text. -/
def exampleAtoi (s : String) : Int := s.length

/-- A parameter table with the minimum match count and an unrelated key. -/
def exampleParameters : ParametersMap :=
  [("Other/Key", "12345"), ("VhEp/MatchCountMin", "1234567")]

/-- Whether word id `k` occurs in the word map. -/
def Multimap.hasKey (mm : Multimap) (k : Int) : Bool :=
  mm.entries.any (fun e => decide (e.1 = k))

/-- The word map `mm` without the entries whose word id is absent from `other`. -/
def Multimap.restrictTo (mm other : Multimap) : Multimap :=
  { entries := mm.entries.filter (fun e => other.hasKey e.1),
    sorted := mm.sorted.filter _ }

/-- The loop variables after the counting loop has run over `dedupExamplePairs` with
every flag set and word ids 1, 2, 3. -/
def dedupExampleState : LoopState :=
  { inliers := [(keyPointAt 1 0, keyPointAt 11 0), (keyPointAt 2 0, keyPointAt 12 0)],
    inliersId := [1, 3],
    goodCount := 2,
    ptsAddedA := [(1, 0), (2, 0)],
    ptsAddedB := [(11, 0), (12, 0)],
    i := 3 }

/-- The variant of `doEpipolarGeometry` in which the early rejection
`if(pairsCount < _matchCountMinAccepted) return false;` is removed; everything else
is as in `doEpipolarGeometry`. -/
def doEpipolarGeometryNoEarlyReject (self : HypVerificatorEpipolarGeo)
    (findFundamentalMat : Estimator) (ssA ssB : Option KeypointSignature) : Option Bool :=
  match ssA, ssB with
  | some a, some b =>
    let out := findPairsOne a.words b.words [] []
    let pairs := out.pairs
    let pairsId := out.pairsId
    let points1 := pairs.map (fun p => p.1.pt)
    let points2 := pairs.map (fun p => p.2.pt)
    let res := findFundamentalMat points1 points2 self.ransacParam1 self.ransacParam2
    if fundMatFound res.fundamentalMatrix then
      match countingLoop res.status pairsId pairs LoopState.init with
      | none => none
      | some st =>
        if st.goodCount < self.matchCountMinAccepted then some false else some true
    else
      some false
  | _, _ => some false

/-! ## Lemmas on the word maps -/

/-- On key-sorted entries whose keys are all at least `k`, taking while the key is
at most `k` selects the entries with key `k`. -/
theorem takeWhile_le_eq_filter (k : Int) :
    ∀ l : List (Int × KeyPoint), l.Pairwise (fun a b => a.1 ≤ b.1) → (∀ e ∈ l, k ≤ e.1) →
      l.takeWhile (fun e => decide (e.1 ≤ k)) = l.filter (fun e => decide (e.1 = k)) := by
  intro l
  induction l with
  | nil => intros; rfl
  | cons a rest ih =>
    intro hs hge
    have hrest := ih (List.Pairwise.of_cons hs) (fun e he => hge e (List.mem_cons_of_mem _ he))
    have ha : k ≤ a.1 := hge a (List.mem_cons_self _ _)
    by_cases hak : a.1 ≤ k
    · have hEq : a.1 = k := le_antisymm hak ha
      rw [List.takeWhile_cons_of_pos (by simpa using hak),
        List.filter_cons_of_pos (by simpa using hEq), hrest]
    · rw [List.takeWhile_cons_of_neg (by simpa using hak)]
      symm
      rw [List.filter_eq_nil_iff]
      intro e he
      have hae : a.1 ≤ e.1 := by
        rcases List.mem_cons.1 he with h | h
        · rw [h]
        · exact List.rel_of_pairwise_cons hs h
      simp only [decide_eq_true_eq]
      omega

theorem equal_range_eq_filter (mm : Multimap) (k : Int) :
    mm.equal_range k = mm.entries.filter (fun e => decide (e.1 = k)) := by
  unfold Multimap.equal_range
  have hs := mm.sorted
  generalize mm.entries = l at hs
  induction l with
  | nil => rfl
  | cons a rest ih =>
    by_cases hak : a.1 < k
    · rw [List.dropWhile_cons_of_pos (by simpa using hak), ih (List.Pairwise.of_cons hs),
        List.filter_cons_of_neg (by simp; omega)]
    · rw [List.dropWhile_cons_of_neg (by simpa using hak)]
      apply takeWhile_le_eq_filter k _ hs
      intro e he
      rcases List.mem_cons.1 he with h | h
      · rw [h]; omega
      · have := List.rel_of_pairwise_cons hs h
        omega

theorem uValues_eq_filter (mm : Multimap) (k : Int) :
    uValues mm k = (mm.entries.filter (fun e => decide (e.1 = k))).map Prod.snd := by
  unfold uValues
  rw [equal_range_eq_filter]

theorem uUniqueKeysLoop_mem :
    ∀ (l : List (Int × KeyPoint)) (last : Option Int),
      l.Pairwise (fun a b => a.1 ≤ b.1) → (∀ k, last = some k → ∀ e ∈ l, k ≤ e.1) →
      ∀ x, x ∈ uUniqueKeysLoop last l ↔ (∃ e ∈ l, e.1 = x) ∧ last ≠ some x := by
  intro l
  induction l with
  | nil => intro last _ _ x; simp [uUniqueKeysLoop]
  | cons a rest ih =>
    intro last hs hb x
    have hs1 := List.Pairwise.of_cons hs
    unfold uUniqueKeysLoop
    by_cases hl : last = some a.1
    · rw [if_pos hl, ih last hs1 (fun k hk e he => hb k hk e (List.mem_cons_of_mem _ he)) x]
      constructor
      · rintro ⟨⟨e, he, hx⟩, hne⟩
        exact ⟨⟨e, List.mem_cons_of_mem _ he, hx⟩, hne⟩
      · rintro ⟨⟨e, he, hx⟩, hne⟩
        refine ⟨?_, hne⟩
        rcases List.mem_cons.1 he with h | h
        · exfalso; apply hne; rw [hl, ← hx, h]
        · exact ⟨e, h, hx⟩
    · rw [if_neg hl, List.mem_cons,
        ih (some a.1) hs1 (fun k hk e he => by
          cases hk
          exact List.rel_of_pairwise_cons hs he) x]
      constructor
      · rintro (h | ⟨⟨e, he, hx⟩, hne⟩)
        · refine ⟨⟨a, List.mem_cons_self _ _, h.symm⟩, ?_⟩
          rw [h]; exact hl
        · refine ⟨⟨e, List.mem_cons_of_mem _ he, hx⟩, ?_⟩
          intro hlast
          have h1 : x ≤ a.1 := hb x hlast a (List.mem_cons_self _ _)
          have h2 : a.1 ≤ e.1 := List.rel_of_pairwise_cons hs he
          apply hne
          congr 1
          omega
      · rintro ⟨⟨e, he, hx⟩, _⟩
        rcases List.mem_cons.1 he with h | h
        · left; rw [← hx, h]
        · by_cases hxa : x = a.1
          · left; exact hxa
          · right
            exact ⟨⟨e, h, hx⟩, fun hc => hxa (Option.some.inj hc).symm⟩

theorem uUniqueKeysLoop_sorted :
    ∀ (l : List (Int × KeyPoint)) (last : Option Int),
      l.Pairwise (fun a b => a.1 ≤ b.1) → (∀ k, last = some k → ∀ e ∈ l, k ≤ e.1) →
      (uUniqueKeysLoop last l).Pairwise (fun a b => a < b) := by
  intro l
  induction l with
  | nil => intro last _ _; simp [uUniqueKeysLoop]
  | cons a rest ih =>
    intro last hs hb
    have hs1 := List.Pairwise.of_cons hs
    unfold uUniqueKeysLoop
    by_cases hl : last = some a.1
    · rw [if_pos hl]
      exact ih last hs1 (fun k hk e he => hb k hk e (List.mem_cons_of_mem _ he))
    · rw [if_neg hl]
      have hb1 : ∀ k, some a.1 = some k → ∀ e ∈ rest, k ≤ e.1 := fun k hk e he => by
        cases hk
        exact List.rel_of_pairwise_cons hs he
      refine List.Pairwise.cons ?_ (ih (some a.1) hs1 hb1)
      intro x hx
      obtain ⟨⟨e, he, hxe⟩, hne⟩ := (uUniqueKeysLoop_mem rest (some a.1) hs1 hb1 x).1 hx
      have h2 : a.1 ≤ e.1 := List.rel_of_pairwise_cons hs he
      have h3 : a.1 ≠ x := fun h => hne (by rw [h])
      omega

theorem mem_uUniqueKeys (mm : Multimap) (x : Int) :
    x ∈ uUniqueKeys mm ↔ ∃ e ∈ mm.entries, e.1 = x := by
  unfold uUniqueKeys
  rw [uUniqueKeysLoop_mem mm.entries none mm.sorted (fun k hk => by cases hk) x]
  simp

theorem uUniqueKeys_sorted (mm : Multimap) :
    (uUniqueKeys mm).Pairwise (fun a b => a < b) :=
  uUniqueKeysLoop_sorted mm.entries none mm.sorted (fun k hk => by cases hk)

theorem uUniqueKeys_nodup (mm : Multimap) : (uUniqueKeys mm).Nodup :=
  (uUniqueKeys_sorted mm).imp (fun h => ne_of_lt h)

/-! ## Lemmas on the counting loop -/

theorem uContains_iff (l : List (Scalar × Scalar)) (v : Scalar × Scalar) :
    uContains l v = true ↔ v ∈ l := by
  unfold uContains
  simp [List.any_eq_true]

/-- A skipped correspondence only advances the index. -/
theorem loopBody_skip (status : List Nat) (pairsId : List Int) (st : LoopState)
    (p : KeyPoint × KeyPoint)
    (h : (p.1.pt.x, p.1.pt.y) ∈ st.ptsAddedA ∨ (p.2.pt.x, p.2.pt.y) ∈ st.ptsAddedB) :
    loopBody status pairsId st p = some { st with i := st.i + 1 } := by
  unfold loopBody
  by_cases hA : uContains st.ptsAddedA (p.1.pt.x, p.1.pt.y) = true
  · simp [hA]
  · rcases h with h | h
    · exact absurd ((uContains_iff _ _).2 h) hA
    · simp [hA, (uContains_iff _ _).2 h]

/-- A surviving correspondence records both end points and is counted when its
flag is set, provided both lookups are in range. -/
theorem loopBody_keep (status : List Nat) (pairsId : List Int) (st : LoopState)
    (p : KeyPoint × KeyPoint) (hs : st.i < status.length) (hp : st.i < pairsId.length)
    (hA : ¬ (p.1.pt.x, p.1.pt.y) ∈ st.ptsAddedA) (hB : ¬ (p.2.pt.x, p.2.pt.y) ∈ st.ptsAddedB) :
    ∃ st1, loopBody status pairsId st p = some st1 ∧ st1.i = st.i + 1 ∧
      st1.ptsAddedA = st.ptsAddedA ++ [(p.1.pt.x, p.1.pt.y)] ∧
      st1.ptsAddedB = st.ptsAddedB ++ [(p.2.pt.x, p.2.pt.y)] ∧
      st1.goodCount = st.goodCount + (if status[st.i] ≠ 0 then 1 else 0) ∧
      st1.inliers = st.inliers ++ (if status[st.i] ≠ 0 then [p] else []) := by
  have hcA : uContains st.ptsAddedA (p.1.pt.x, p.1.pt.y) = false := by
    rw [← Bool.not_eq_true]; exact fun h => hA ((uContains_iff _ _).1 h)
  have hcB : uContains st.ptsAddedB (p.2.pt.x, p.2.pt.y) = false := by
    rw [← Bool.not_eq_true]; exact fun h => hB ((uContains_iff _ _).1 h)
  unfold loopBody uValueAt
  rw [List.get?_eq_get hs, List.get?_eq_get hp]
  simp only [hcA, hcB, Bool.false_eq_true, if_false, List.get_eq_getElem]
  by_cases hflag : status[st.i] = 0
  · simp [hflag]
  · simp [hflag]

theorem mem_used_step (used : List Point2f) (added : List (Scalar × Scalar)) (pt : Point2f)
    (h : ∀ q : Point2f, q ∈ used ↔ (q.x, q.y) ∈ added) :
    ∀ q : Point2f, q ∈ pt :: used ↔ (q.x, q.y) ∈ added ++ [(pt.x, pt.y)] := by
  intro q
  rcases q with ⟨qx, qy⟩
  rcases pt with ⟨px, py⟩
  simp only [List.mem_cons, List.mem_append, List.mem_singleton, h, Prod.mk.injEq,
    Point2f.mk.injEq]
  tauto

theorem countingLoop_spec (status : List Nat) (pairsId : List Int) :
    ∀ (pairs : List (KeyPoint × KeyPoint)) (st : LoopState) (usedA usedB : List Point2f),
      st.i + pairs.length ≤ status.length → st.i + pairs.length ≤ pairsId.length →
      (∀ q : Point2f, q ∈ usedA ↔ (q.x, q.y) ∈ st.ptsAddedA) →
      (∀ q : Point2f, q ∈ usedB ↔ (q.x, q.y) ∈ st.ptsAddedB) →
      ∃ st1, countingLoop status pairsId pairs st = some st1 ∧
        st1.goodCount = st.goodCount + acceptedInlierCount pairs (status.drop st.i) usedA usedB := by
  intro pairs
  induction pairs with
  | nil =>
    intro st usedA usedB _ _ _ _
    exact ⟨st, rfl, by simp [acceptedInlierCount]⟩
  | cons p rest ih =>
    intro st usedA usedB hs hp hA hB
    simp only [List.length_cons] at hs hp
    have hs1 : st.i < status.length := by omega
    have hp1 : st.i < pairsId.length := by omega
    have hdrop : status.drop st.i = status[st.i] :: status.drop (st.i + 1) :=
      List.drop_eq_getElem_cons hs1
    rw [hdrop]
    by_cases hskip : (p.1.pt.x, p.1.pt.y) ∈ st.ptsAddedA ∨ (p.2.pt.x, p.2.pt.y) ∈ st.ptsAddedB
    · have hskip1 : p.1.pt ∈ usedA ∨ p.2.pt ∈ usedB := by
        rw [hA, hB]; exact hskip
      obtain ⟨st1, h1, h2⟩ := ih { st with i := st.i + 1 } usedA usedB
        (by simp only; omega) (by simp only; omega) hA hB
      refine ⟨st1, ?_, ?_⟩
      · simp only [countingLoop, loopBody_skip status pairsId st p hskip]
        exact h1
      · rw [h2]
        simp only [acceptedInlierCount, hskip1, if_true]
    · have hskip1 : ¬ (p.1.pt ∈ usedA ∨ p.2.pt ∈ usedB) := by
        rw [hA, hB]; exact hskip
      rw [not_or] at hskip
      obtain ⟨st0, hb, hi, hpa, hpb, hg, _⟩ :=
        loopBody_keep status pairsId st p hs1 hp1 hskip.1 hskip.2
      obtain ⟨st1, h1, h2⟩ := ih st0 (p.1.pt :: usedA) (p.2.pt :: usedB)
        (by rw [hi]; omega) (by rw [hi]; omega)
        (by rw [hpa]; exact mem_used_step usedA st.ptsAddedA p.1.pt hA)
        (by rw [hpb]; exact mem_used_step usedB st.ptsAddedB p.2.pt hB)
      refine ⟨st1, ?_, ?_⟩
      · simp only [countingLoop, hb]
        exact h1
      · rw [h2, hg, hi]
        simp only [acceptedInlierCount, hskip1, if_false]
        by_cases hflag : status[st.i] = 0
        · simp [hflag]
        · simp [hflag]; ring

theorem countingLoop_append (status : List Nat) (pairsId : List Int) :
    ∀ (l1 l2 : List (KeyPoint × KeyPoint)) (st : LoopState),
      countingLoop status pairsId (l1 ++ l2) st =
        (countingLoop status pairsId l1 st).bind (countingLoop status pairsId l2) := by
  intro l1
  induction l1 with
  | nil => intro l2 st; rfl
  | cons p rest ih =>
    intro l2 st
    simp only [List.cons_append, countingLoop]
    cases loopBody status pairsId st p with
    | none => rfl
    | some st1 => exact ih l2 st1

/-- An iteration never removes a recorded A-position. -/
theorem loopBody_ptsAddedA_mono (status : List Nat) (pairsId : List Int) (st st1 : LoopState)
    (p : KeyPoint × KeyPoint) (h : loopBody status pairsId st p = some st1)
    (v : Scalar × Scalar) (hv : v ∈ st.ptsAddedA) : v ∈ st1.ptsAddedA := by
  unfold loopBody at h
  split at h
  · cases h; exact hv
  · split at h
    · cases h; exact hv
    · simp only at h
      split at h
      · cases h
      · split at h
        · split at h
          · cases h
          · cases h; exact List.mem_append_left _ hv
        · cases h; exact List.mem_append_left _ hv

theorem countingLoop_ptsAddedA_mono (status : List Nat) (pairsId : List Int) :
    ∀ (l : List (KeyPoint × KeyPoint)) (st st1 : LoopState),
      countingLoop status pairsId l st = some st1 →
      ∀ v, v ∈ st.ptsAddedA → v ∈ st1.ptsAddedA := by
  intro l
  induction l with
  | nil => intro st st1 h v hv; cases h; exact hv
  | cons p rest ih =>
    intro st st1 h v hv
    simp only [countingLoop] at h
    cases hb : loopBody status pairsId st p with
    | none => rw [hb] at h; cases h
    | some st0 =>
      rw [hb] at h
      exact ih st0 st1 h v (loopBody_ptsAddedA_mono status pairsId st st0 p hb v hv)

/-- With enough flags and ids the loop runs through, and leaves the index advanced
by the number of correspondences. -/
theorem countingLoop_some (status : List Nat) (pairsId : List Int) :
    ∀ (l : List (KeyPoint × KeyPoint)) (st : LoopState),
      st.i + l.length ≤ status.length → st.i + l.length ≤ pairsId.length →
      ∃ st1, countingLoop status pairsId l st = some st1 ∧ st1.i = st.i + l.length := by
  intro l
  induction l with
  | nil => intro st _ _; exact ⟨st, rfl, rfl⟩
  | cons p rest ih =>
    intro st hs hp
    simp only [List.length_cons] at hs hp
    by_cases hskip : (p.1.pt.x, p.1.pt.y) ∈ st.ptsAddedA ∨ (p.2.pt.x, p.2.pt.y) ∈ st.ptsAddedB
    · obtain ⟨st1, h1, h2⟩ := ih { st with i := st.i + 1 } (by simp only; omega)
        (by simp only; omega)
      refine ⟨st1, ?_, ?_⟩
      · simp only [countingLoop, loopBody_skip status pairsId st p hskip]
        exact h1
      · rw [h2]; simp only [List.length_cons]; omega
    · rw [not_or] at hskip
      obtain ⟨st0, hb, hi, _⟩ :=
        loopBody_keep status pairsId st p (by omega) (by omega) hskip.1 hskip.2
      obtain ⟨st1, h1, h2⟩ := ih st0 (by rw [hi]; omega) (by rw [hi]; omega)
      refine ⟨st1, ?_, ?_⟩
      · simp only [countingLoop, hb]
        exact h1
      · rw [h2, hi]; simp only [List.length_cons]; omega

theorem stateAfter_some (status : List Nat) (pairsId : List Int)
    (pairs : List (KeyPoint × KeyPoint)) (n : Nat) (hn : n ≤ pairs.length)
    (hs : pairs.length ≤ status.length) (hp : pairs.length ≤ pairsId.length) :
    ∃ st, stateAfter status pairsId pairs n = some st ∧ st.i = n := by
  have hlen : (pairs.take n).length = n := by
    rw [List.length_take]; omega
  obtain ⟨st, h1, h2⟩ := countingLoop_some status pairsId (pairs.take n) LoopState.init
    (by rw [hlen]; simp only [LoopState.init]; omega)
    (by rw [hlen]; simp only [LoopState.init]; omega)
  refine ⟨st, h1, ?_⟩
  rw [h2, hlen]; simp [LoopState.init]

theorem stateAfter_succ (status : List Nat) (pairsId : List Int)
    (pairs : List (KeyPoint × KeyPoint)) (n : Nat) (p : KeyPoint × KeyPoint)
    (hp : pairs.get? n = some p) :
    stateAfter status pairsId pairs (n + 1) =
      (stateAfter status pairsId pairs n).bind (fun st => loopBody status pairsId st p) := by
  unfold stateAfter
  rw [List.get?_eq_getElem?] at hp
  rw [List.take_succ, hp, countingLoop_append]
  cases countingLoop status pairsId (List.take n pairs) LoopState.init with
  | none => rfl
  | some st =>
    simp only [Option.toList, Option.bind, countingLoop]
    cases loopBody status pairsId st p <;> rfl

theorem stateAfter_mono (status : List Nat) (pairsId : List Int)
    (pairs : List (KeyPoint × KeyPoint)) (m n : Nat) (hmn : m ≤ n) (stm stn : LoopState)
    (hm : stateAfter status pairsId pairs m = some stm)
    (hn : stateAfter status pairsId pairs n = some stn) :
    ∀ v, v ∈ stm.ptsAddedA → v ∈ stn.ptsAddedA := by
  unfold stateAfter at hm hn
  have hsplit : pairs.take n = pairs.take m ++ (pairs.take n).drop m := by
    have := List.take_append_drop m (pairs.take n)
    rw [List.take_take, Nat.min_eq_left hmn] at this
    exact this.symm
  rw [hsplit, countingLoop_append, hm] at hn
  exact countingLoop_ptsAddedA_mono status pairsId _ stm stn hn
/-- What a successful iteration of the counting loop does. -/
theorem loopBody_some_cases (status : List Nat) (pairsId : List Int) (st st1 : LoopState)
    (p : KeyPoint × KeyPoint) (h : loopBody status pairsId st p = some st1) :
    (((p.1.pt.x, p.1.pt.y) ∈ st.ptsAddedA ∨ (p.2.pt.x, p.2.pt.y) ∈ st.ptsAddedB) ∧
      st1 = { st with i := st.i + 1 }) ∨
    (¬ (p.1.pt.x, p.1.pt.y) ∈ st.ptsAddedA ∧ ¬ (p.2.pt.x, p.2.pt.y) ∈ st.ptsAddedB ∧
      ∃ flag, status.get? st.i = some flag ∧ st1.i = st.i + 1 ∧
        st1.ptsAddedA = st.ptsAddedA ++ [(p.1.pt.x, p.1.pt.y)] ∧
        st1.ptsAddedB = st.ptsAddedB ++ [(p.2.pt.x, p.2.pt.y)] ∧
        ((flag = 0 ∧ st1.goodCount = st.goodCount ∧ st1.inliers = st.inliers) ∨
          (flag ≠ 0 ∧ st1.goodCount = st.goodCount + 1 ∧ st1.inliers = st.inliers ++ [p]))) := by
  by_cases hskip : (p.1.pt.x, p.1.pt.y) ∈ st.ptsAddedA ∨ (p.2.pt.x, p.2.pt.y) ∈ st.ptsAddedB
  · left
    rw [loopBody_skip status pairsId st p hskip] at h
    exact ⟨hskip, (Option.some.inj h).symm⟩
  · right
    rw [not_or] at hskip
    have hcA : uContains st.ptsAddedA (p.1.pt.x, p.1.pt.y) = false := by
      rw [← Bool.not_eq_true]; exact fun hc => hskip.1 ((uContains_iff _ _).1 hc)
    have hcB : uContains st.ptsAddedB (p.2.pt.x, p.2.pt.y) = false := by
      rw [← Bool.not_eq_true]; exact fun hc => hskip.2 ((uContains_iff _ _).1 hc)
    refine ⟨hskip.1, hskip.2, ?_⟩
    unfold loopBody at h
    simp only [hcA, hcB, Bool.false_eq_true, if_false] at h
    cases hf : status.get? st.i with
    | none => rw [hf] at h; simp at h
    | some flag =>
      rw [hf] at h
      refine ⟨flag, rfl, ?_⟩
      by_cases hz : flag = 0
      · simp only [hz, ne_eq, not_true_eq_false, if_false] at h
        cases h
        exact ⟨rfl, rfl, rfl, Or.inl ⟨hz, rfl, rfl⟩⟩
      · simp only [ne_eq, hz, not_false_eq_true, if_true] at h
        cases hid : uValueAt pairsId st.i with
        | none => rw [hid] at h; simp at h
        | some wordId =>
          rw [hid] at h
          cases h
          exact ⟨rfl, rfl, rfl, Or.inr ⟨hz, rfl, rfl⟩⟩

/-- The counted correspondences keep distinct, recorded end points, and their
number is the accepted inlier count. -/
theorem countingLoop_inliers_inv (status : List Nat) (pairsId : List Int) :
    ∀ (l : List (KeyPoint × KeyPoint)) (st st1 : LoopState),
      countingLoop status pairsId l st = some st1 →
      ((st.inliers.map (fun p => (p.1.pt.x, p.1.pt.y))).Nodup ∧
        (st.inliers.map (fun p => (p.2.pt.x, p.2.pt.y))).Nodup ∧
        (∀ p ∈ st.inliers,
          (p.1.pt.x, p.1.pt.y) ∈ st.ptsAddedA ∧ (p.2.pt.x, p.2.pt.y) ∈ st.ptsAddedB) ∧
        st.goodCount = (st.inliers.length : Int)) →
      ((st1.inliers.map (fun p => (p.1.pt.x, p.1.pt.y))).Nodup ∧
        (st1.inliers.map (fun p => (p.2.pt.x, p.2.pt.y))).Nodup ∧
        (∀ p ∈ st1.inliers,
          (p.1.pt.x, p.1.pt.y) ∈ st1.ptsAddedA ∧ (p.2.pt.x, p.2.pt.y) ∈ st1.ptsAddedB) ∧
        st1.goodCount = (st1.inliers.length : Int)) := by
  intro l
  induction l with
  | nil => intro st st1 h hinv; cases h; exact hinv
  | cons p rest ih =>
    intro st st1 h hinv
    simp only [countingLoop] at h
    cases hb : loopBody status pairsId st p with
    | none => rw [hb] at h; cases h
    | some st0 =>
      rw [hb] at h
      apply ih st0 st1 h
      obtain ⟨hnA, hnB, hrec, hcount⟩ := hinv
      rcases loopBody_some_cases status pairsId st st0 p hb with
        ⟨_, hst0⟩ | ⟨hA, hB, flag, _, _, hpa, hpb, hcase⟩
      · rw [hst0]; exact ⟨hnA, hnB, hrec, hcount⟩
      · rcases hcase with ⟨_, hg, hin⟩ | ⟨_, hg, hin⟩
        · rw [hin, hg, hpa, hpb]
          exact ⟨hnA, hnB,
            fun q hq => ⟨List.mem_append_left _ (hrec q hq).1,
              List.mem_append_left _ (hrec q hq).2⟩, hcount⟩
        · rw [hin, hg, hpa, hpb]
          refine ⟨?_, ?_, ?_, ?_⟩
          · rw [List.map_append, List.nodup_append]
            refine ⟨hnA, List.nodup_singleton _, ?_⟩
            intro v hv1 hv2
            rw [List.map_singleton, List.mem_singleton] at hv2
            obtain ⟨q, hq, hqv⟩ := List.mem_map.1 hv1
            apply hA
            rw [← hv2, ← hqv]
            exact (hrec q hq).1
          · rw [List.map_append, List.nodup_append]
            refine ⟨hnB, List.nodup_singleton _, ?_⟩
            intro v hv1 hv2
            rw [List.map_singleton, List.mem_singleton] at hv2
            obtain ⟨q, hq, hqv⟩ := List.mem_map.1 hv1
            apply hB
            rw [← hv2, ← hqv]
            exact (hrec q hq).2
          · intro q hq
            rcases List.mem_append.1 hq with hq | hq
            · exact ⟨List.mem_append_left _ (hrec q hq).1,
                List.mem_append_left _ (hrec q hq).2⟩
            · rw [List.mem_singleton] at hq
              rw [hq]
              exact ⟨List.mem_append_right _ (List.mem_singleton_self _),
                List.mem_append_right _ (List.mem_singleton_self _)⟩
          · rw [hcount, List.length_append, List.length_singleton]
            push_cast
            rfl

/-- Every correspondence the loop adds to the inliers has its flag set. -/
theorem countingLoop_inliers_flagged (status : List Nat) (pairsId : List Int) :
    ∀ (l : List (KeyPoint × KeyPoint)) (st st1 : LoopState),
      countingLoop status pairsId l st = some st1 →
      ∀ p ∈ st1.inliers, p ∈ st.inliers ∨
        ∃ k flag, l.get? k = some p ∧ status.get? (st.i + k) = some flag ∧ flag ≠ 0 := by
  intro l
  induction l with
  | nil => intro st st1 h p hp; cases h; exact Or.inl hp
  | cons q rest ih =>
    intro st st1 h p hp
    simp only [countingLoop] at h
    cases hb : loopBody status pairsId st q with
    | none => rw [hb] at h; cases h
    | some st0 =>
      rw [hb] at h
      have hi0 : st0.i = st.i + 1 := by
        rcases loopBody_some_cases status pairsId st st0 q hb with
          ⟨_, hst0⟩ | ⟨_, _, flag, _, hi, _⟩
        · rw [hst0]
        · exact hi
      rcases ih st0 st1 h p hp with hin | ⟨k, flag, hk, hf, hne⟩
      · rcases loopBody_some_cases status pairsId st st0 q hb with
          ⟨_, hst0⟩ | ⟨_, _, flag, hflag, _, _, _, hcase⟩
        · rw [hst0] at hin; exact Or.inl hin
        · rcases hcase with ⟨_, _, hinl⟩ | ⟨hne, _, hinl⟩
          · rw [hinl] at hin; exact Or.inl hin
          · rw [hinl] at hin
            rcases List.mem_append.1 hin with hin | hin
            · exact Or.inl hin
            · rw [List.mem_singleton] at hin
              right
              exact ⟨0, flag, by rw [hin]; rfl, by simpa using hflag, hne⟩
      · right
        refine ⟨k + 1, flag, by simpa using hk, ?_, hne⟩
        rw [← hf, hi0]
        congr 1
        omega

/-- The accepted inlier count grows by at most one per correspondence and by at
most the number of set flags from the current index on. -/
theorem countingLoop_goodCount_le (status : List Nat) (pairsId : List Int) :
    ∀ (l : List (KeyPoint × KeyPoint)) (st st1 : LoopState),
      countingLoop status pairsId l st = some st1 →
      st.goodCount ≤ st1.goodCount ∧
      st1.goodCount ≤ st.goodCount + (l.length : Int) ∧
      st1.goodCount ≤ st.goodCount +
        (((status.drop st.i).countP (fun flag => decide (flag ≠ 0)) : Nat) : Int) := by
  intro l
  induction l with
  | nil =>
    intro st st1 h
    cases h
    refine ⟨le_refl _, by simp, ?_⟩
    have := Int.natCast_nonneg ((status.drop st.i).countP (fun flag => decide (flag ≠ 0)))
    omega
  | cons q rest ih =>
    intro st st1 h
    simp only [countingLoop] at h
    cases hb : loopBody status pairsId st q with
    | none => rw [hb] at h; cases h
    | some st0 =>
      rw [hb] at h
      obtain ⟨h1, h2, h3⟩ := ih st0 st1 h
      simp only [List.length_cons]
      rcases loopBody_some_cases status pairsId st st0 q hb with
        ⟨_, hst0⟩ | ⟨_, _, flag, hflag, hi, _, _, hcase⟩
      · have hg : st0.goodCount = st.goodCount := by rw [hst0]
        have hi : st0.i = st.i + 1 := by rw [hst0]
        rw [hg] at h1 h2 h3
        rw [hi] at h3
        have hsub : (status.drop (st.i + 1)).countP (fun flag => decide (flag ≠ 0)) ≤
            (status.drop st.i).countP (fun flag => decide (flag ≠ 0)) := by
          apply List.Sublist.countP_le
          rw [← List.drop_drop 1 st.i]
          exact List.drop_sublist 1 _
        refine ⟨h1, by push_cast; omega, ?_⟩
        have : (((status.drop (st.i + 1)).countP (fun flag => decide (flag ≠ 0)) : Nat) : Int) ≤
            (((status.drop st.i).countP (fun flag => decide (flag ≠ 0)) : Nat) : Int) := by
          exact_mod_cast hsub
        omega
      · have hlt : st.i < status.length := by
          rw [List.get?_eq_getElem?] at hflag
          exact (List.getElem?_eq_some_iff.1 hflag).1
        have hget : status[st.i] = flag := by
          rw [List.get?_eq_getElem?] at hflag
          exact (List.getElem?_eq_some_iff.1 hflag).2
        have hdrop : status.drop st.i = flag :: status.drop (st.i + 1) := by
          rw [List.drop_eq_getElem_cons hlt, hget]
        rw [hi] at h3
        rw [hdrop, List.countP_cons]
        rcases hcase with ⟨hz, hg, _⟩ | ⟨hnz, hg, _⟩
        · have hd : decide (flag ≠ 0) = false := by simp [hz]
          rw [hd]
          simp only [Bool.false_eq_true, if_false, Nat.add_zero]
          refine ⟨by omega, by push_cast; omega, by omega⟩
        · have hd : decide (flag ≠ 0) = true := by simp [hnz]
          rw [hd]
          simp only [if_true]
          refine ⟨by omega, by push_cast; omega, by push_cast; omega⟩

/-! ## Lemmas on the pairing policies -/

theorem uValues_eq_keypointsOf (mm : Multimap) (k : Int) : uValues mm k = keypointsOf mm k :=
  uValues_eq_filter mm k

theorem foldl_emit (f : PairsOut → Int → PairsOut)
    (emit : Int → List (Int × KeyPoint × KeyPoint)) (c : Int → Int)
    (hf : ∀ st i, f st i =
      { realPairsCount := st.realPairsCount + c i,
        pairs := st.pairs ++ (emit i).map Prod.snd,
        pairsId := st.pairsId ++ (emit i).map Prod.fst }) :
    ∀ (l : List Int) (st : PairsOut), l.foldl f st =
      { realPairsCount := st.realPairsCount + (l.map c).sum,
        pairs := st.pairs ++ (l.flatMap emit).map Prod.snd,
        pairsId := st.pairsId ++ (l.flatMap emit).map Prod.fst } := by
  intro l
  induction l with
  | nil => intro st; simp
  | cons i rest ih =>
    intro st
    rw [List.foldl_cons, ih, hf]
    simp [add_assoc]

theorem findPairsOneBody_emit (wordsA wordsB : Multimap) (st : PairsOut) (i : Int) :
    findPairsOneBody wordsA wordsB st i =
      { realPairsCount := st.realPairsCount + oneCount wordsA wordsB i,
        pairs := st.pairs ++ (oneEmit wordsA wordsB i).map Prod.snd,
        pairsId := st.pairsId ++ (oneEmit wordsA wordsB i).map Prod.fst } := by
  have key : ∀ ptsA ptsB : List KeyPoint,
      (if h : ptsA.length = 1 ∧ ptsB.length = 1 then
        ({ pairs := st.pairs ++
             [(ptsA.head (List.ne_nil_of_length_pos (by omega)),
               ptsB.head (List.ne_nil_of_length_pos (by omega)))],
           pairsId := st.pairsId ++ [i],
           realPairsCount := st.realPairsCount + 1 } : PairsOut)
      else if ptsA.length > 1 ∧ ptsB.length > 1 then
        { st with
          realPairsCount := st.realPairsCount +
            ((if ptsA.length > ptsB.length then ptsB.length else ptsA.length : Nat) : Int) }
      else st) =
      { realPairsCount := st.realPairsCount +
          (if ptsA.length = 1 ∧ ptsB.length = 1 then 1
            else if ptsA.length > 1 ∧ ptsB.length > 1 then
              ((min ptsA.length ptsB.length : Nat) : Int)
            else 0),
        pairs := st.pairs ++ (match ptsA, ptsB with
          | [a], [b] => [(i, (a, b))]
          | _, _ => []).map Prod.snd,
        pairsId := st.pairsId ++ (match ptsA, ptsB with
          | [a], [b] => [(i, (a, b))]
          | _, _ => []).map Prod.fst } := by
    intro ptsA ptsB
    rcases ptsA with _ | ⟨a, _ | ⟨a2, ra⟩⟩ <;> rcases ptsB with _ | ⟨b, _ | ⟨b2, rb⟩⟩ <;>
      simp [Nat.min_def]
    omega
  exact key (uValues wordsA i) (uValues wordsB i)

theorem findPairsOne_eq (wordsA wordsB : Multimap) (pairs0 : List (KeyPoint × KeyPoint))
    (ids0 : List Int) :
    findPairsOne wordsA wordsB pairs0 ids0 =
      { realPairsCount := ((uUniqueKeys wordsA).map (oneCount wordsA wordsB)).sum,
        pairs := ((uUniqueKeys wordsA).flatMap (oneEmit wordsA wordsB)).map Prod.snd,
        pairsId := ids0 ++ ((uUniqueKeys wordsA).flatMap (oneEmit wordsA wordsB)).map Prod.fst } := by
  unfold findPairsOne
  rw [foldl_emit _ _ _ (findPairsOneBody_emit wordsA wordsB)]
  simp

theorem mem_oneEmit (wordsA wordsB : Multimap) (i id : Int) (a b : KeyPoint) :
    (id, (a, b)) ∈ oneEmit wordsA wordsB i ↔
      i = id ∧ uValues wordsA i = [a] ∧ uValues wordsB i = [b] := by
  unfold oneEmit
  rcases uValues wordsA i with _ | ⟨a1, _ | ⟨a2, ra⟩⟩ <;>
    rcases uValues wordsB i with _ | ⟨b1, _ | ⟨b2, rb⟩⟩ <;>
    simp
  constructor
  · rintro ⟨h1, h2, h3⟩; exact ⟨h1.symm, h2.symm, h3.symm⟩
  · rintro ⟨h1, h2, h3⟩; exact ⟨h1.symm, h2.symm, h3.symm⟩

theorem oneEmit_ids (wordsA wordsB : Multimap) (i : Int) :
    (oneEmit wordsA wordsB i).map Prod.fst =
      if (uValues wordsA i).length = 1 ∧ (uValues wordsB i).length = 1 then [i] else [] := by
  unfold oneEmit
  rcases uValues wordsA i with _ | ⟨a1, _ | ⟨a2, ra⟩⟩ <;>
    rcases uValues wordsB i with _ | ⟨b1, _ | ⟨b2, rb⟩⟩ <;>
    simp

/-- Occurrences of `id` in the ids emitted over a duplicate-free id list, when each
id emits itself once or nothing. -/
theorem count_flatMap_self (c : Int → Prop) [DecidablePred c] (id : Int) :
    ∀ l : List Int, l.Nodup →
      (l.flatMap (fun i => if c i then [i] else [])).count id =
        if id ∈ l ∧ c id then 1 else 0 := by
  intro l
  induction l with
  | nil => intro _; simp
  | cons x rest ih =>
    intro hnd
    rw [List.nodup_cons] at hnd
    rw [List.flatMap_cons, List.count_append, ih hnd.2]
    by_cases hx : x = id
    · subst hx
      by_cases hc : c x
      · simp [hc, hnd.1]
      · simp [hc]
    · have hx1 : ¬ id = x := fun h => hx h.symm
      by_cases hc : c x
      · simp [hc, hx, hx1]
      · simp [hc, hx1]

theorem keypointsOf_ne_nil_mem (mm : Multimap) (id : Int) (h : keypointsOf mm id ≠ []) :
    id ∈ uUniqueKeys mm := by
  rw [mem_uUniqueKeys]
  unfold keypointsOf at h
  rcases hf : mm.entries.filter (fun e => decide (e.1 = id)) with _ | ⟨e, rest⟩
  · rw [hf] at h; exact absurd rfl h
  · have he : e ∈ mm.entries.filter (fun e => decide (e.1 = id)) := by
      rw [hf]; exact List.mem_cons_self _ _
    rw [List.mem_filter] at he
    exact ⟨e, he.1, by simpa using he.2⟩
theorem oneEmit_cond_iff (wordsA wordsB : Multimap) (id : Int) :
    (id ∈ uUniqueKeys wordsA ∧
        ((uValues wordsA id).length = 1 ∧ (uValues wordsB id).length = 1)) ↔
      ((keypointsOf wordsA id).length = 1 ∧ (keypointsOf wordsB id).length = 1) := by
  rw [uValues_eq_keypointsOf, uValues_eq_keypointsOf]
  constructor
  · exact fun h => h.2
  · intro h
    refine ⟨keypointsOf_ne_nil_mem wordsA id ?_, h⟩
    intro h0
    rw [h0] at h
    simp at h

/-- The word ids and the correspondences of `findPairsOne`, zipped: the emissions
of the word ids of A in ascending order. -/
theorem findPairsOne_zip (wordsA wordsB : Multimap) (pairs0 : List (KeyPoint × KeyPoint)) :
    (findPairsOne wordsA wordsB pairs0 []).pairsId.zip
        (findPairsOne wordsA wordsB pairs0 []).pairs =
      (uUniqueKeys wordsA).flatMap (oneEmit wordsA wordsB) := by
  rw [findPairsOne_eq]
  simp only [List.nil_append]
  exact (List.zip_of_prod rfl rfl).symm

theorem findPairsOne_count (wordsA wordsB : Multimap) (pairs0 : List (KeyPoint × KeyPoint))
    (id : Int) :
    (findPairsOne wordsA wordsB pairs0 []).pairsId.count id =
      if (keypointsOf wordsA id).length = 1 ∧ (keypointsOf wordsB id).length = 1 then 1
      else 0 := by
  rw [findPairsOne_eq]
  simp only [List.nil_append, List.map_flatMap, oneEmit_ids]
  rw [count_flatMap_self (fun i => (uValues wordsA i).length = 1 ∧ (uValues wordsB i).length = 1)
    id _ (uUniqueKeys_nodup wordsA)]
  simp only [oneEmit_cond_iff]

theorem findPairsOne_mem (wordsA wordsB : Multimap) (pairs0 : List (KeyPoint × KeyPoint))
    (id : Int) (a b : KeyPoint) :
    (id, (a, b)) ∈ (findPairsOne wordsA wordsB pairs0 []).pairsId.zip
        (findPairsOne wordsA wordsB pairs0 []).pairs ↔
      keypointsOf wordsA id = [a] ∧ keypointsOf wordsB id = [b] := by
  rw [findPairsOne_zip, List.mem_flatMap]
  simp only [mem_oneEmit, uValues_eq_keypointsOf]
  constructor
  · rintro ⟨i, _, hi, h1, h2⟩
    subst hi
    exact ⟨h1, h2⟩
  · rintro ⟨h1, h2⟩
    refine ⟨id, keypointsOf_ne_nil_mem wordsA id ?_, rfl, h1, h2⟩
    rw [h1]; simp
theorem takeWhile_congr_mem {α : Type} (p q : α → Bool) :
    ∀ l : List α, (∀ e ∈ l, p e = q e) → l.takeWhile p = l.takeWhile q := by
  intro l
  induction l with
  | nil => intro _; rfl
  | cons a rest ih =>
    intro h
    have ha := h a (List.mem_cons_self _ _)
    have hr := ih (fun e he => h e (List.mem_cons_of_mem _ he))
    simp only [List.takeWhile_cons, ha, hr]

/-- Walking from `find(k)` while the key is `k` visits `equal_range(k)`. -/
theorem find_takeWhile (mm : Multimap) (k : Int) :
    (mm.find k).takeWhile (fun e => decide (e.1 = k)) = mm.equal_range k := by
  unfold Multimap.find Multimap.equal_range
  have hs := mm.sorted
  generalize mm.entries = l at hs
  induction l with
  | nil => rfl
  | cons a rest ih =>
    by_cases hak : a.1 < k
    · rw [List.dropWhile_cons_of_pos (by simpa using hak)]
      exact ih (List.Pairwise.of_cons hs)
    · rw [List.dropWhile_cons_of_neg (by simpa using hak)]
      by_cases hEq : a.1 = k
      · simp only [hEq, if_true]
        apply takeWhile_congr_mem
        intro e he
        have hae : a.1 ≤ e.1 := by
          rcases List.mem_cons.1 he with h | h
          · rw [h]
          · exact List.rel_of_pairwise_cons hs h
        by_cases hek : e.1 = k
        · simp [hek]
        · have : ¬ e.1 ≤ k := by omega
          simp [hek, this]
      · simp only [hEq, if_false, List.takeWhile_nil]
        rw [List.takeWhile_cons_of_neg]
        simp only [decide_eq_true_eq]
        omega

/-- The `while` loop of `findPairsDirect` pairs, in lock-step, the leading entries
of key `i` of both iterators. -/
theorem findPairsDirectWhile_eq (i : Int) :
    ∀ (xs ys : List (Int × KeyPoint)) (st : PairsOut),
      findPairsDirectWhile i xs ys st =
        { realPairsCount := st.realPairsCount +
            ((((xs.takeWhile (fun e => decide (e.1 = i))).map Prod.snd).zip
              ((ys.takeWhile (fun e => decide (e.1 = i))).map Prod.snd)).length : Int),
          pairs := st.pairs ++
            (((xs.takeWhile (fun e => decide (e.1 = i))).map Prod.snd).zip
              ((ys.takeWhile (fun e => decide (e.1 = i))).map Prod.snd)),
          pairsId := st.pairsId ++
            ((((xs.takeWhile (fun e => decide (e.1 = i))).map Prod.snd).zip
              ((ys.takeWhile (fun e => decide (e.1 = i))).map Prod.snd)).map (fun _ => i)) } := by
  intro xs
  induction xs with
  | nil => intro ys st; simp [findPairsDirectWhile]
  | cons a xs ih =>
    intro ys st
    cases ys with
    | nil => simp [findPairsDirectWhile]
    | cons b ys =>
      unfold findPairsDirectWhile
      by_cases h : a.1 = b.1 ∧ a.1 = i
      · have ha : a.1 = i := h.2
        have hb : b.1 = i := by rw [← h.1]; exact h.2
        rw [if_pos h, ih]
        simp [ha, hb, add_assoc, add_comm]
      · rw [if_neg h]
        by_cases ha : a.1 = i
        · have hb : ¬ b.1 = i := fun hb => h ⟨by rw [ha, hb], ha⟩
          simp [ha, hb]
        · simp [ha]

theorem findPairsDirect_body_emit (wordsA wordsB : Multimap) (st : PairsOut) (i : Int) :
    findPairsDirectWhile i (wordsA.find i) (wordsB.find i) st =
      { realPairsCount := st.realPairsCount + ((directEmit wordsA wordsB i).length : Int),
        pairs := st.pairs ++ (directEmit wordsA wordsB i).map Prod.snd,
        pairsId := st.pairsId ++ (directEmit wordsA wordsB i).map Prod.fst } := by
  rw [findPairsDirectWhile_eq, find_takeWhile, find_takeWhile]
  unfold directEmit uValues
  simp only [List.length_map, List.map_map, Function.comp_def, List.map_id']

theorem findPairsDirect_eq (wordsA wordsB : Multimap) (pairs0 : List (KeyPoint × KeyPoint))
    (ids0 : List Int) :
    findPairsDirect wordsA wordsB pairs0 ids0 =
      { realPairsCount :=
          ((uUniqueKeys wordsA).map (fun i => ((directEmit wordsA wordsB i).length : Int))).sum,
        pairs := ((uUniqueKeys wordsA).flatMap (directEmit wordsA wordsB)).map Prod.snd,
        pairsId :=
          ids0 ++ ((uUniqueKeys wordsA).flatMap (directEmit wordsA wordsB)).map Prod.fst } := by
  unfold findPairsDirect
  rw [foldl_emit _ (directEmit wordsA wordsB) _ (findPairsDirect_body_emit wordsA wordsB)]
  simp
/-- Selecting the emissions of one word id from the emissions over a duplicate-free
id list, when every emission carries the id it was emitted for. -/
theorem filter_flatMap_tagged (emit : Int → List (Int × KeyPoint × KeyPoint))
    (htag : ∀ i x, x ∈ emit i → x.1 = i) (id : Int) :
    ∀ l : List Int, l.Nodup →
      (l.flatMap emit).filter (fun x => decide (x.1 = id)) =
        if id ∈ l then emit id else [] := by
  intro l
  induction l with
  | nil => intro _; simp
  | cons x rest ih =>
    intro hnd
    rw [List.nodup_cons] at hnd
    rw [List.flatMap_cons, List.filter_append, ih hnd.2]
    by_cases hx : x = id
    · subst hx
      have h1 : (emit x).filter (fun y => decide (y.1 = x)) = emit x := by
        rw [List.filter_eq_self]
        intro y hy
        simp [htag x y hy]
      simp [h1, hnd.1]
    · have h1 : (emit x).filter (fun y => decide (y.1 = id)) = [] := by
        rw [List.filter_eq_nil_iff]
        intro y hy
        simp only [decide_eq_true_eq]
        rw [htag x y hy]
        exact hx
      have hx1 : ¬ id = x := fun h => hx h.symm
      simp [h1, hx1]

theorem count_map_fst (id : Int) :
    ∀ l : List (Int × KeyPoint × KeyPoint),
      (l.map Prod.fst).count id = (l.filter (fun x => decide (x.1 = id))).length := by
  intro l
  induction l with
  | nil => rfl
  | cons a rest ih =>
    rw [List.map_cons, List.count_cons, ih]
    by_cases h : a.1 = id
    · simp [h]
    · simp [h]

theorem sum_length_flatMap (emit : Int → List (Int × KeyPoint × KeyPoint)) :
    ∀ l : List Int,
      (l.map (fun i => ((emit i).length : Int))).sum = ((l.flatMap emit).length : Int) := by
  intro l
  induction l with
  | nil => rfl
  | cons a rest ih => simp [ih]

theorem directEmit_tag (wordsA wordsB : Multimap) (i : Int) (x : Int × KeyPoint × KeyPoint)
    (hx : x ∈ directEmit wordsA wordsB i) : x.1 = i := by
  unfold directEmit at hx
  rw [List.mem_map] at hx
  obtain ⟨p, _, hp⟩ := hx
  rw [← hp]

theorem keypointsOf_nil_of_not_mem (mm : Multimap) (id : Int) (h : ¬ id ∈ uUniqueKeys mm) :
    keypointsOf mm id = [] := by
  by_contra hne
  exact h (keypointsOf_ne_nil_mem mm id hne)

theorem findPairsDirect_zip (wordsA wordsB : Multimap) (pairs0 : List (KeyPoint × KeyPoint)) :
    (findPairsDirect wordsA wordsB pairs0 []).pairsId.zip
        (findPairsDirect wordsA wordsB pairs0 []).pairs =
      (uUniqueKeys wordsA).flatMap (directEmit wordsA wordsB) := by
  rw [findPairsDirect_eq]
  simp only [List.nil_append]
  exact (List.zip_of_prod rfl rfl).symm

theorem findPairsDirect_filter (wordsA wordsB : Multimap) (id : Int) :
    ((uUniqueKeys wordsA).flatMap (directEmit wordsA wordsB)).filter
        (fun x => decide (x.1 = id)) =
      ((keypointsOf wordsA id).zip (keypointsOf wordsB id)).map (fun p => (id, p)) := by
  rw [filter_flatMap_tagged _ (directEmit_tag wordsA wordsB) id _ (uUniqueKeys_nodup wordsA)]
  by_cases h : id ∈ uUniqueKeys wordsA
  · rw [if_pos h]
    unfold directEmit
    rw [uValues_eq_keypointsOf, uValues_eq_keypointsOf]
  · rw [if_neg h, keypointsOf_nil_of_not_mem wordsA id h]
    rfl
theorem findPairsAll_inner (i : Int) (j : KeyPoint) :
    ∀ (ptsB : List KeyPoint) (st : PairsOut),
      ptsB.foldl
          (fun st3 k =>
            { st3 with pairsId := st3.pairsId ++ [i], pairs := st3.pairs ++ [(j, k)] })
          st =
        { st with
          pairsId := st.pairsId ++ ptsB.map (fun _ => i),
          pairs := st.pairs ++ ptsB.map (fun k => (j, k)) } := by
  intro ptsB
  induction ptsB with
  | nil => intro st; simp
  | cons b rest ih => intro st; rw [List.foldl_cons, ih]; simp

theorem findPairsAll_outer (i : Int) (ptsB : List KeyPoint) :
    ∀ (ptsA : List KeyPoint) (st : PairsOut),
      ptsA.foldl
          (fun st2 j =>
            ptsB.foldl
              (fun st3 k =>
                { st3 with pairsId := st3.pairsId ++ [i], pairs := st3.pairs ++ [(j, k)] })
              st2)
          st =
        { st with
          pairsId := st.pairsId ++
            (ptsA.flatMap (fun a => ptsB.map (fun b => (a, b)))).map (fun _ => i),
          pairs := st.pairs ++ ptsA.flatMap (fun a => ptsB.map (fun b => (a, b))) } := by
  intro ptsA
  induction ptsA with
  | nil => intro st; simp
  | cons a rest ih =>
    intro st
    rw [List.foldl_cons, findPairsAll_inner, ih]
    simp only [List.flatMap_cons, List.map_append, List.map_map, List.append_assoc,
      Function.comp_def]

theorem findPairsAllBody_emit (wordsA wordsB : Multimap) (st : PairsOut) (i : Int) :
    findPairsAllBody wordsA wordsB st i =
      { realPairsCount := st.realPairsCount + allCount wordsA wordsB i,
        pairs := st.pairs ++ (allEmit wordsA wordsB i).map Prod.snd,
        pairsId := st.pairsId ++ (allEmit wordsA wordsB i).map Prod.fst } := by
  unfold findPairsAllBody allEmit allCount
  simp only [findPairsAll_outer, List.map_map, Function.comp_def, List.map_id']
  congr 2
  rw [Nat.min_def]
  by_cases h : (uValues wordsA i).length ≤ (uValues wordsB i).length
  · rw [if_pos h, if_neg (by omega)]
  · rw [if_neg h, if_pos (by omega)]

theorem findPairsAll_eq (wordsA wordsB : Multimap) (pairs0 : List (KeyPoint × KeyPoint))
    (ids0 : List Int) :
    findPairsAll wordsA wordsB pairs0 ids0 =
      { realPairsCount := ((uUniqueKeys wordsA).map (allCount wordsA wordsB)).sum,
        pairs := ((uUniqueKeys wordsA).flatMap (allEmit wordsA wordsB)).map Prod.snd,
        pairsId :=
          ids0 ++ ((uUniqueKeys wordsA).flatMap (allEmit wordsA wordsB)).map Prod.fst } := by
  unfold findPairsAll
  rw [foldl_emit _ _ _ (findPairsAllBody_emit wordsA wordsB)]
  simp

theorem allEmit_tag (wordsA wordsB : Multimap) (i : Int) (x : Int × KeyPoint × KeyPoint)
    (hx : x ∈ allEmit wordsA wordsB i) : x.1 = i := by
  unfold allEmit at hx
  rw [List.mem_map] at hx
  obtain ⟨p, _, hp⟩ := hx
  rw [← hp]

theorem findPairsAll_zip (wordsA wordsB : Multimap) (pairs0 : List (KeyPoint × KeyPoint)) :
    (findPairsAll wordsA wordsB pairs0 []).pairsId.zip
        (findPairsAll wordsA wordsB pairs0 []).pairs =
      (uUniqueKeys wordsA).flatMap (allEmit wordsA wordsB) := by
  rw [findPairsAll_eq]
  simp only [List.nil_append]
  exact (List.zip_of_prod rfl rfl).symm

theorem findPairsAll_filter (wordsA wordsB : Multimap) (id : Int) :
    ((uUniqueKeys wordsA).flatMap (allEmit wordsA wordsB)).filter
        (fun x => decide (x.1 = id)) =
      ((keypointsOf wordsA id).flatMap
        (fun a => (keypointsOf wordsB id).map (fun b => (a, b)))).map (fun p => (id, p)) := by
  rw [filter_flatMap_tagged _ (allEmit_tag wordsA wordsB) id _ (uUniqueKeys_nodup wordsA)]
  by_cases h : id ∈ uUniqueKeys wordsA
  · rw [if_pos h]
    unfold allEmit
    rw [uValues_eq_keypointsOf, uValues_eq_keypointsOf]
  · rw [if_neg h, keypointsOf_nil_of_not_mem wordsA id h]
    rfl

theorem length_product (ptsB : List KeyPoint) :
    ∀ ptsA : List KeyPoint,
      (ptsA.flatMap (fun a => ptsB.map (fun b => (a, b)))).length =
        ptsA.length * ptsB.length := by
  intro ptsA
  induction ptsA with
  | nil => simp
  | cons a rest ih =>
    rw [List.flatMap_cons, List.length_append, ih, List.length_map, List.length_cons]
    ring

/-- The contributions `min(|A_id|, |B_id|)` summed over the word ids of A are the
sum over all word ids: an id missing from A contributes `min(0, |B_id|) = 0`. -/
theorem sum_allCount_eq (wordsA wordsB : Multimap) :
    ((uUniqueKeys wordsA).map (allCount wordsA wordsB)).sum = sumMinCounts wordsA wordsB := by
  have hf : allCount wordsA wordsB = fun id =>
      ((min (keypointsOf wordsA id).length (keypointsOf wordsB id).length : Nat) : Int) := by
    funext id
    unfold allCount
    rw [uValues_eq_keypointsOf, uValues_eq_keypointsOf]
  unfold sumMinCounts wordIds
  rw [hf, ← List.sum_toFinset _ (uUniqueKeys_nodup wordsA),
    ← List.sum_toFinset _ (List.nodup_dedup _)]
  apply Finset.sum_subset
  · intro x hx
    rw [List.mem_toFinset] at hx
    rw [List.mem_toFinset, List.mem_dedup, List.mem_append]
    left
    obtain ⟨e, he, hxe⟩ := (mem_uUniqueKeys wordsA x).1 hx
    exact List.mem_map.2 ⟨e, he, hxe⟩
  · intro x _ hx
    rw [List.mem_toFinset] at hx
    rw [keypointsOf_nil_of_not_mem wordsA x hx]
    simp
theorem sum_map_le (f g : Int → Int) :
    ∀ l : List Int, (∀ i ∈ l, f i ≤ g i) → (l.map f).sum ≤ (l.map g).sum := by
  intro l
  induction l with
  | nil => intro _; simp
  | cons a rest ih =>
    intro h
    simp only [List.map_cons, List.sum_cons]
    exact add_le_add (h a (List.mem_cons_self _ _))
      (ih (fun i hi => h i (List.mem_cons_of_mem _ hi)))

theorem sum_map_nonneg (f : Int → Int) :
    ∀ l : List Int, (∀ i ∈ l, 0 ≤ f i) → 0 ≤ (l.map f).sum := by
  intro l
  induction l with
  | nil => intro _; simp
  | cons a rest ih =>
    intro h
    simp only [List.map_cons, List.sum_cons]
    exact add_nonneg (h a (List.mem_cons_self _ _))
      (ih (fun i hi => h i (List.mem_cons_of_mem _ hi)))

theorem oneEmit_length_le (wordsA wordsB : Multimap) (i : Int) :
    ((oneEmit wordsA wordsB i).length : Int) ≤ oneCount wordsA wordsB i := by
  unfold oneEmit oneCount
  rcases uValues wordsA i with _ | ⟨a1, _ | ⟨a2, ra⟩⟩ <;>
    rcases uValues wordsB i with _ | ⟨b1, _ | ⟨b2, rb⟩⟩ <;>
    simp
  omega

theorem oneCount_nonneg (wordsA wordsB : Multimap) (i : Int) :
    0 ≤ oneCount wordsA wordsB i := by
  unfold oneCount
  split
  · decide
  · split
    · exact Int.natCast_nonneg _
    · exact le_refl 0

theorem allCount_le_length (wordsA wordsB : Multimap) (i : Int) :
    allCount wordsA wordsB i ≤ ((allEmit wordsA wordsB i).length : Int) := by
  unfold allCount allEmit
  rw [List.length_map, length_product]
  have h : min (uValues wordsA i).length (uValues wordsB i).length ≤
      (uValues wordsA i).length * (uValues wordsB i).length := by
    rcases Nat.eq_zero_or_pos (uValues wordsA i).length with ha | ha
    · rw [ha]; simp
    · rcases Nat.eq_zero_or_pos (uValues wordsB i).length with hb | hb
      · rw [hb]; simp
      · exact le_trans (Nat.min_le_left _ _) (Nat.le_mul_of_pos_right _ hb)
  exact_mod_cast h

theorem allCount_nonneg (wordsA wordsB : Multimap) (i : Int) :
    0 ≤ allCount wordsA wordsB i := by
  unfold allCount
  exact Int.natCast_nonneg _
/-- The word ids emitted over a strictly ascending id list are in ascending order,
when every emission carries the id it was emitted for. -/
theorem tagged_ids_sorted (emit : Int → List (Int × KeyPoint × KeyPoint))
    (htag : ∀ i x, x ∈ emit i → x.1 = i) :
    ∀ l : List Int, l.Pairwise (fun a b => a < b) →
      ((l.flatMap emit).map Prod.fst).Pairwise (fun a b => a ≤ b) := by
  intro l
  induction l with
  | nil => intro _; simp
  | cons x rest ih =>
    intro hs
    rw [List.flatMap_cons, List.map_append, List.pairwise_append]
    refine ⟨?_, ih (List.Pairwise.of_cons hs), ?_⟩
    · rw [List.pairwise_iff_forall_sublist]
      intro a b hab
      have ha : a ∈ (emit x).map Prod.fst := hab.subset (List.mem_cons_self _ _)
      have hb : b ∈ (emit x).map Prod.fst :=
        hab.subset (List.mem_cons_of_mem _ (List.mem_singleton_self _))
      obtain ⟨ya, hya, rfl⟩ := List.mem_map.1 ha
      obtain ⟨yb, hyb, rfl⟩ := List.mem_map.1 hb
      rw [htag x ya hya, htag x yb hyb]
    · intro a ha b hb
      obtain ⟨ya, hya, rfl⟩ := List.mem_map.1 ha
      obtain ⟨yb, hyb, rfl⟩ := List.mem_map.1 hb
      obtain ⟨i, hi, hyi⟩ := List.mem_flatMap.1 hyb
      rw [htag x ya hya, htag i yb hyi]
      exact le_of_lt (List.rel_of_pairwise_cons hs hi)

theorem oneEmit_tag (wordsA wordsB : Multimap) (i : Int) (x : Int × KeyPoint × KeyPoint)
    (hx : x ∈ oneEmit wordsA wordsB i) : x.1 = i := by
  rcases x with ⟨id, a, b⟩
  exact ((mem_oneEmit wordsA wordsB i id a b).1 hx).1.symm

theorem flatMap_self_sublist (c : Int → Prop) [DecidablePred c] :
    ∀ l : List Int, (l.flatMap (fun i => if c i then [i] else [])).Sublist l := by
  intro l
  induction l with
  | nil => simp
  | cons x rest ih =>
    rw [List.flatMap_cons]
    by_cases hc : c x
    · simp only [hc, if_true, List.singleton_append]
      exact List.Sublist.cons₂ x ih
    · simp only [hc, if_false, List.nil_append]
      exact List.Sublist.cons x ih

theorem findPairsOne_ids_sublist (wordsA wordsB : Multimap)
    (pairs0 : List (KeyPoint × KeyPoint)) :
    (findPairsOne wordsA wordsB pairs0 []).pairsId.Sublist (uUniqueKeys wordsA) := by
  rw [findPairsOne_eq]
  simp only [List.nil_append, List.map_flatMap, oneEmit_ids]
  exact flatMap_self_sublist _ _

/-! ## The verifier -/

theorem findPairsOne_length (wordsA wordsB : Multimap) (pairs0 : List (KeyPoint × KeyPoint)) :
    (findPairsOne wordsA wordsB pairs0 []).pairsId.length =
      (findPairsOne wordsA wordsB pairs0 []).pairs.length := by
  rw [findPairsOne_eq]
  simp

/-- Past the early rejection and with a model found, `doEpipolarGeometry` compares
the accepted inlier count of the specification with the minimum. -/
theorem doEpipolarGeometry_found (self : HypVerificatorEpipolarGeo) (est : Estimator)
    (ssA ssB : KeypointSignature)
    (hcount : self.matchCountMinAccepted ≤ ((correspondences ssA ssB).length : Int))
    (hfound : fundMatFound (estimatorResult self est ssA ssB).fundamentalMatrix = true)
    (hflags : (correspondences ssA ssB).length ≤ (estimatorResult self est ssA ssB).status.length) :
    doEpipolarGeometry self est (some ssA) (some ssB) =
      some (decide (self.matchCountMinAccepted ≤ (acceptedInliers self est ssA ssB : Int))) := by
  have hlen := findPairsOne_length ssA.words ssB.words []
  obtain ⟨st1, h1, h2⟩ := countingLoop_spec (estimatorResult self est ssA ssB).status
    (findPairsOne ssA.words ssB.words [] []).pairsId (correspondences ssA ssB)
    LoopState.init [] []
    (by simpa [LoopState.init] using hflags)
    (by simp only [LoopState.init, correspondences]; omega)
    (by simp [LoopState.init]) (by simp [LoopState.init])
  have h3 : st1.goodCount = (acceptedInliers self est ssA ssB : Int) := by
    rw [h2]; simp [LoopState.init, acceptedInliers]
  unfold doEpipolarGeometry
  simp only
  unfold estimatorResult correspondences at hfound h1
  unfold correspondences at hcount
  rw [if_neg (not_lt.2 hcount), if_pos hfound, h1]
  simp only [h3]
  by_cases hge : self.matchCountMinAccepted ≤ (acceptedInliers self est ssA ssB : Int)
  · rw [if_neg (not_lt.2 hge)]; simp [hge]
  · rw [if_pos (not_le.1 hge)]; simp [hge]

theorem doEpipolarGeometry_tooFew (self : HypVerificatorEpipolarGeo) (est : Estimator)
    (ssA ssB : KeypointSignature)
    (hcount : ((correspondences ssA ssB).length : Int) < self.matchCountMinAccepted) :
    doEpipolarGeometry self est (some ssA) (some ssB) = some false := by
  unfold doEpipolarGeometry
  unfold correspondences at hcount
  simp only [if_pos hcount]

theorem doEpipolarGeometry_notFound (self : HypVerificatorEpipolarGeo) (est : Estimator)
    (ssA ssB : KeypointSignature)
    (hfound : fundMatFound (estimatorResult self est ssA ssB).fundamentalMatrix = false) :
    doEpipolarGeometry self est (some ssA) (some ssB) = some false := by
  unfold doEpipolarGeometry
  unfold estimatorResult correspondences at hfound
  simp only [hfound]
  split <;> simp

theorem verify_keypoint (self : HypVerificatorEpipolarGeo) (est : Estimator)
    (ssRef ssHyp : KeypointSignature) :
    verify self est (some (Signature.keypoint ssRef)) (some (Signature.keypoint ssHyp)) =
      doEpipolarGeometry self est (some ssHyp) (some ssRef) := rfl
theorem acceptedInlierCount_le :
    ∀ (pairs : List (KeyPoint × KeyPoint)) (flags : List Nat) (usedA usedB : List Point2f),
      acceptedInlierCount pairs flags usedA usedB ≤ pairs.length := by
  intro pairs
  induction pairs with
  | nil => intro flags usedA usedB; simp [acceptedInlierCount]
  | cons p rest ih =>
    intro flags usedA usedB
    cases flags with
    | nil => simp [acceptedInlierCount]
    | cons flag flags =>
      unfold acceptedInlierCount
      simp only [List.length_cons]
      split
      · exact Nat.le_succ_of_le (ih flags usedA usedB)
      · have := ih flags (p.1.pt :: usedA) (p.2.pt :: usedB)
        split <;> omega

/-- With a flag for every correspondence, the variant without early rejection
returns whether a model is found and the accepted inlier count reaches the minimum. -/
theorem doEpipolarGeometryNoEarlyReject_eq (self : HypVerificatorEpipolarGeo) (est : Estimator)
    (ssA ssB : KeypointSignature)
    (hflags : (correspondences ssA ssB).length ≤ (estimatorResult self est ssA ssB).status.length) :
    doEpipolarGeometryNoEarlyReject self est (some ssA) (some ssB) =
      some (fundMatFound (estimatorResult self est ssA ssB).fundamentalMatrix &&
        decide (self.matchCountMinAccepted ≤ (acceptedInliers self est ssA ssB : Int))) := by
  have hlen := findPairsOne_length ssA.words ssB.words []
  obtain ⟨st1, h1, h2⟩ := countingLoop_spec (estimatorResult self est ssA ssB).status
    (findPairsOne ssA.words ssB.words [] []).pairsId (correspondences ssA ssB)
    LoopState.init [] []
    (by simpa [LoopState.init] using hflags)
    (by simp only [LoopState.init, correspondences]; omega)
    (by simp [LoopState.init]) (by simp [LoopState.init])
  have h3 : st1.goodCount = (acceptedInliers self est ssA ssB : Int) := by
    rw [h2]; simp [LoopState.init, acceptedInliers]
  by_cases hfound : fundMatFound (estimatorResult self est ssA ssB).fundamentalMatrix = true
  · rw [hfound, Bool.true_and]
    unfold doEpipolarGeometryNoEarlyReject
    simp only
    unfold estimatorResult correspondences at hfound h1
    rw [if_pos hfound, h1]
    simp only [h3]
    by_cases hge : self.matchCountMinAccepted ≤ (acceptedInliers self est ssA ssB : Int)
    · rw [if_neg (not_lt.2 hge)]; simp [hge]
    · rw [if_pos (not_le.1 hge)]; simp [hge]
  · have hnot : fundMatFound (estimatorResult self est ssA ssB).fundamentalMatrix = false := by
      simpa using hfound
    rw [hnot, Bool.false_and]
    unfold doEpipolarGeometryNoEarlyReject
    unfold estimatorResult correspondences at hnot
    simp only [hnot]
    simp

theorem doEpipolarGeometry_eq (self : HypVerificatorEpipolarGeo) (est : Estimator)
    (ssA ssB : KeypointSignature)
    (hflags : (correspondences ssA ssB).length ≤ (estimatorResult self est ssA ssB).status.length) :
    doEpipolarGeometry self est (some ssA) (some ssB) =
      some (fundMatFound (estimatorResult self est ssA ssB).fundamentalMatrix &&
        decide (self.matchCountMinAccepted ≤ (acceptedInliers self est ssA ssB : Int))) := by
  by_cases hcount : self.matchCountMinAccepted ≤ ((correspondences ssA ssB).length : Int)
  · by_cases hfound : fundMatFound (estimatorResult self est ssA ssB).fundamentalMatrix = true
    · rw [doEpipolarGeometry_found self est ssA ssB hcount hfound hflags, hfound, Bool.true_and]
    · have hnot : fundMatFound (estimatorResult self est ssA ssB).fundamentalMatrix = false := by
        simpa using hfound
      rw [doEpipolarGeometry_notFound self est ssA ssB hnot, hnot, Bool.false_and]
  · rw [doEpipolarGeometry_tooFew self est ssA ssB (not_le.1 hcount)]
    have hle : (acceptedInliers self est ssA ssB : Int) ≤ ((correspondences ssA ssB).length : Int) := by
      unfold acceptedInliers
      exact_mod_cast acceptedInlierCount_le _ _ _ _
    have hlt : ¬ self.matchCountMinAccepted ≤ (acceptedInliers self est ssA ssB : Int) := by
      omega
    simp [hlt]

/-! ## Lemmas on the parameter table -/

theorem lookup_filter (p : String → Bool) (key : String) (hp : p key = true) :
    ∀ l : List (String × String),
      List.lookup key (l.filter (fun e => p e.1)) = List.lookup key l := by
  intro l
  induction l with
  | nil => rfl
  | cons e rest ih =>
    rcases e with ⟨k, v⟩
    by_cases hk : key = k
    · subst hk
      rw [List.filter_cons_of_pos (by simpa using hp)]
      simp [List.lookup]
    · have hne : (key == k) = false := by simpa using hk
      by_cases hpk : p k = true
      · rw [List.filter_cons_of_pos (by simpa using hpk)]
        simp only [List.lookup, hne]
        exact ih
      · rw [List.filter_cons_of_neg (by simpa using hpk)]
        simp only [List.lookup, hne]
        exact ih

theorem parseParameters_congr (keys : ParameterKeys) (atoi : String → Int)
    (atof : String → Scalar) (self : HypVerificatorEpipolarGeo) (p1 p2 : ParametersMap)
    (h1 : p1.find keys.kVhEpMatchCountMin = p2.find keys.kVhEpMatchCountMin)
    (h2 : p1.find keys.kVhEpRansacParam1 = p2.find keys.kVhEpRansacParam1)
    (h3 : p1.find keys.kVhEpRansacParam2 = p2.find keys.kVhEpRansacParam2) :
    parseParameters keys atoi atof self p1 = parseParameters keys atoi atof self p2 := by
  unfold parseParameters
  rw [h1, h2, h3]

/-! ## Lemmas on restricting and swapping word maps -/

theorem hasKey_iff_mem (mm : Multimap) (k : Int) :
    mm.hasKey k = true ↔ k ∈ uUniqueKeys mm := by
  rw [mem_uUniqueKeys]
  unfold Multimap.hasKey
  simp [List.any_eq_true]

theorem keypointsOf_nil_of_not_hasKey (mm : Multimap) (k : Int) (h : mm.hasKey k = false) :
    keypointsOf mm k = [] := by
  apply keypointsOf_nil_of_not_mem
  rw [← hasKey_iff_mem, h]
  simp

theorem keypointsOf_restrictTo (mm other : Multimap) (k : Int) (h : other.hasKey k = true) :
    keypointsOf (mm.restrictTo other) k = keypointsOf mm k := by
  unfold keypointsOf Multimap.restrictTo
  simp only [List.filter_filter]
  congr 1
  apply List.filter_congr
  intro e _
  by_cases hek : e.1 = k
  · simp [hek, h]
  · simp [hek]

/-- Two strictly ascending lists with the same members are equal. -/
theorem sorted_ext (l1 l2 : List Int) (h1 : l1.Pairwise (fun a b => a < b))
    (h2 : l2.Pairwise (fun a b => a < b)) (hmem : ∀ x, x ∈ l1 ↔ x ∈ l2) : l1 = l2 := by
  have hp : l1.Perm l2 :=
    (List.perm_ext_iff_of_nodup (h1.imp (fun h => ne_of_lt h)) (h2.imp (fun h => ne_of_lt h))).2
      hmem
  exact List.eq_of_perm_of_sorted hp h1 h2

theorem uUniqueKeys_restrictTo (mm other : Multimap) :
    uUniqueKeys (mm.restrictTo other) =
      (uUniqueKeys mm).filter (fun i => other.hasKey i) := by
  apply sorted_ext _ _ (uUniqueKeys_sorted _) ((uUniqueKeys_sorted mm).filter _)
  intro x
  rw [mem_uUniqueKeys, List.mem_filter, mem_uUniqueKeys]
  unfold Multimap.restrictTo
  simp only [List.mem_filter]
  constructor
  · rintro ⟨e, ⟨he, hk⟩, hx⟩
    exact ⟨⟨e, he, hx⟩, by rw [← hx]; exact hk⟩
  · rintro ⟨⟨e, he, hx⟩, hk⟩
    exact ⟨e, ⟨he, by rw [hx]; exact hk⟩, hx⟩

theorem flatMap_filter_eq (p : Int → Bool) (f : Int → List (Int × KeyPoint × KeyPoint)) :
    ∀ l : List Int, (∀ i ∈ l, p i = false → f i = []) →
      (l.filter p).flatMap f = l.flatMap f := by
  intro l
  induction l with
  | nil => intro _; rfl
  | cons x rest ih =>
    intro h
    have hrest := ih (fun i hi => h i (List.mem_cons_of_mem _ hi))
    by_cases hp : p x = true
    · rw [List.filter_cons_of_pos hp, List.flatMap_cons, List.flatMap_cons, hrest]
    · rw [List.filter_cons_of_neg hp, List.flatMap_cons, hrest,
        h x (List.mem_cons_self _ _) (by simpa using hp), List.nil_append]

theorem sum_filter_eq (p : Int → Bool) (c : Int → Int) :
    ∀ l : List Int, (∀ i ∈ l, p i = false → c i = 0) →
      ((l.filter p).map c).sum = (l.map c).sum := by
  intro l
  induction l with
  | nil => intro _; rfl
  | cons x rest ih =>
    intro h
    have hrest := ih (fun i hi => h i (List.mem_cons_of_mem _ hi))
    by_cases hp : p x = true
    · rw [List.filter_cons_of_pos hp, List.map_cons, List.map_cons, List.sum_cons,
        List.sum_cons, hrest]
    · rw [List.filter_cons_of_neg hp, List.map_cons, List.sum_cons, hrest,
        h x (List.mem_cons_self _ _) (by simpa using hp), zero_add]

theorem flatMap_congr_mem (f g : Int → List (Int × KeyPoint × KeyPoint)) :
    ∀ l : List Int, (∀ i ∈ l, f i = g i) → l.flatMap f = l.flatMap g := by
  intro l
  induction l with
  | nil => intro _; rfl
  | cons x rest ih =>
    intro h
    rw [List.flatMap_cons, List.flatMap_cons, h x (List.mem_cons_self _ _),
      ih (fun i hi => h i (List.mem_cons_of_mem _ hi))]

/-- Restricting both word maps to their common word ids leaves the emissions and
the counts of a policy unchanged, when the policy reads the maps through `uValues`
only and emits and counts nothing for an id without keypoints in B. -/
theorem restrict_emit_eq (wordsA wordsB : Multimap)
    (emit : Multimap → Multimap → Int → List (Int × KeyPoint × KeyPoint))
    (c : Multimap → Multimap → Int → Int)
    (hcongr : ∀ (a1 b1 a2 b2 : Multimap) (i : Int), uValues a1 i = uValues a2 i →
      uValues b1 i = uValues b2 i → emit a1 b1 i = emit a2 b2 i ∧ c a1 b1 i = c a2 b2 i)
    (hnil : ∀ (a b : Multimap) (i : Int), uValues b i = [] → emit a b i = [] ∧ c a b i = 0) :
    (uUniqueKeys (wordsA.restrictTo wordsB)).flatMap
        (emit (wordsA.restrictTo wordsB) (wordsB.restrictTo wordsA)) =
      (uUniqueKeys wordsA).flatMap (emit wordsA wordsB) ∧
    ((uUniqueKeys (wordsA.restrictTo wordsB)).map
        (c (wordsA.restrictTo wordsB) (wordsB.restrictTo wordsA))).sum =
      ((uUniqueKeys wordsA).map (c wordsA wordsB)).sum := by
  have hkey : ∀ i ∈ (uUniqueKeys wordsA).filter (fun i => wordsB.hasKey i),
      emit (wordsA.restrictTo wordsB) (wordsB.restrictTo wordsA) i = emit wordsA wordsB i ∧
      c (wordsA.restrictTo wordsB) (wordsB.restrictTo wordsA) i = c wordsA wordsB i := by
    intro i hi
    rw [List.mem_filter] at hi
    apply hcongr
    · rw [uValues_eq_keypointsOf, uValues_eq_keypointsOf]
      exact keypointsOf_restrictTo wordsA wordsB i hi.2
    · rw [uValues_eq_keypointsOf, uValues_eq_keypointsOf]
      exact keypointsOf_restrictTo wordsB wordsA i ((hasKey_iff_mem wordsA i).2 hi.1)
  have hout : ∀ i ∈ uUniqueKeys wordsA, wordsB.hasKey i = false →
      emit wordsA wordsB i = [] ∧ c wordsA wordsB i = 0 := by
    intro i _ hb
    apply hnil
    rw [uValues_eq_keypointsOf]
    exact keypointsOf_nil_of_not_hasKey wordsB i hb
  rw [uUniqueKeys_restrictTo]
  constructor
  · rw [flatMap_congr_mem _ _ _ (fun i hi => (hkey i hi).1)]
    exact flatMap_filter_eq _ _ _ (fun i hi hb => (hout i hi hb).1)
  · rw [List.map_congr_left (fun i hi => (hkey i hi).2)]
    exact sum_filter_eq _ _ _ (fun i hi hb => (hout i hi hb).2)
theorem oneEmit_swap (wordsA wordsB : Multimap) (i : Int) :
    oneEmit wordsB wordsA i =
      (oneEmit wordsA wordsB i).map (fun x => (x.1, (x.2.2, x.2.1))) := by
  unfold oneEmit
  rcases uValues wordsA i with _ | ⟨a1, _ | ⟨a2, ra⟩⟩ <;>
    rcases uValues wordsB i with _ | ⟨b1, _ | ⟨b2, rb⟩⟩ <;>
    rfl

theorem oneCount_swap (wordsA wordsB : Multimap) (i : Int) :
    oneCount wordsB wordsA i = oneCount wordsA wordsB i := by
  unfold oneCount
  rw [Nat.min_comm]
  simp only [and_comm]

theorem oneEmit_nil_left (wordsA wordsB : Multimap) (i : Int) (h : uValues wordsA i = []) :
    oneEmit wordsA wordsB i = [] ∧ oneCount wordsA wordsB i = 0 := by
  unfold oneEmit oneCount
  rw [h]
  simp

theorem oneEmit_nil_right (wordsA wordsB : Multimap) (i : Int) (h : uValues wordsB i = []) :
    oneEmit wordsA wordsB i = [] ∧ oneCount wordsA wordsB i = 0 := by
  unfold oneEmit oneCount
  rw [h]
  rcases uValues wordsA i with _ | ⟨a1, _ | ⟨a2, ra⟩⟩ <;> simp

/-- The common word ids, read off either word map. -/
theorem common_ids_eq (wordsA wordsB : Multimap) :
    (uUniqueKeys wordsB).filter (fun i => wordsA.hasKey i) =
      (uUniqueKeys wordsA).filter (fun i => wordsB.hasKey i) := by
  apply sorted_ext _ _ ((uUniqueKeys_sorted wordsB).filter _)
    ((uUniqueKeys_sorted wordsA).filter _)
  intro x
  rw [List.mem_filter, List.mem_filter, hasKey_iff_mem, hasKey_iff_mem]
  exact and_comm

theorem findPairsOne_swap_emit (wordsA wordsB : Multimap) :
    (uUniqueKeys wordsB).flatMap (oneEmit wordsB wordsA) =
      ((uUniqueKeys wordsA).flatMap (oneEmit wordsA wordsB)).map
        (fun x => (x.1, (x.2.2, x.2.1))) ∧
    ((uUniqueKeys wordsB).map (oneCount wordsB wordsA)).sum =
      ((uUniqueKeys wordsA).map (oneCount wordsA wordsB)).sum := by
  have hB : ∀ i ∈ uUniqueKeys wordsB, wordsA.hasKey i = false →
      oneEmit wordsB wordsA i = [] ∧ oneCount wordsB wordsA i = 0 := by
    intro i _ h
    apply oneEmit_nil_right
    rw [uValues_eq_keypointsOf]
    exact keypointsOf_nil_of_not_hasKey wordsA i h
  have hA : ∀ i ∈ uUniqueKeys wordsA, wordsB.hasKey i = false →
      oneEmit wordsA wordsB i = [] ∧ oneCount wordsA wordsB i = 0 := by
    intro i _ h
    apply oneEmit_nil_right
    rw [uValues_eq_keypointsOf]
    exact keypointsOf_nil_of_not_hasKey wordsB i h
  constructor
  · rw [← flatMap_filter_eq (fun i => wordsA.hasKey i) _ _ (fun i hi h => (hB i hi h).1),
      ← flatMap_filter_eq (fun i => wordsB.hasKey i) (oneEmit wordsA wordsB) _
        (fun i hi h => (hA i hi h).1),
      common_ids_eq, List.map_flatMap]
    exact flatMap_congr_mem _ _ _ (fun i _ => oneEmit_swap wordsA wordsB i)
  · rw [← sum_filter_eq (fun i => wordsA.hasKey i) _ _ (fun i hi h => (hB i hi h).2),
      ← sum_filter_eq (fun i => wordsB.hasKey i) (oneCount wordsA wordsB) _
        (fun i hi h => (hA i hi h).2),
      common_ids_eq]
    exact congrArg List.sum (List.map_congr_left (fun i _ => oneCount_swap wordsA wordsB i))

/-! ## Lemmas on the word ids of the correspondences -/

theorem mem_zip_of_get? {α β : Type} :
    ∀ (l1 : List α) (l2 : List β) (n : Nat) (a : α) (b : β),
      l1.get? n = some a → l2.get? n = some b → (a, b) ∈ l1.zip l2 := by
  intro l1
  induction l1 with
  | nil => intro l2 n a b h; simp at h
  | cons x xs ih =>
    intro l2 n a b h1 h2
    cases l2 with
    | nil => simp at h2
    | cons y ys =>
      cases n with
      | zero =>
        simp only [List.get?_cons_zero, Option.some.injEq] at h1 h2
        rw [h1, h2]
        exact List.mem_cons_self _ _
      | succ m =>
        simp only [List.get?_cons_succ] at h1 h2
        exact List.mem_cons_of_mem _ (ih ys m a b h1 h2)

theorem mem_entries_of_mem_uValues (mm : Multimap) (i : Int) (a : KeyPoint)
    (h : a ∈ uValues mm i) : (i, a) ∈ mm.entries := by
  rw [uValues_eq_filter, List.mem_map] at h
  obtain ⟨e, he, hea⟩ := h
  rw [List.mem_filter] at he
  have hk : e.1 = i := by simpa using he.2
  have : e = (i, a) := by
    rcases e with ⟨k, v⟩
    simp only at hk hea
    rw [hk, hea]
  rw [← this]
  exact he.1

theorem oneEmit_stored (wordsA wordsB : Multimap) (i : Int) (x : Int × KeyPoint × KeyPoint)
    (hx : x ∈ oneEmit wordsA wordsB i) :
    (x.1, x.2.1) ∈ wordsA.entries ∧ (x.1, x.2.2) ∈ wordsB.entries := by
  rcases x with ⟨id, a, b⟩
  obtain ⟨hi, ha, hb⟩ := (mem_oneEmit wordsA wordsB i id a b).1 hx
  subst hi
  exact ⟨mem_entries_of_mem_uValues wordsA i a (by rw [ha]; exact List.mem_singleton_self _),
    mem_entries_of_mem_uValues wordsB i b (by rw [hb]; exact List.mem_singleton_self _)⟩

theorem directEmit_stored (wordsA wordsB : Multimap) (i : Int)
    (x : Int × KeyPoint × KeyPoint) (hx : x ∈ directEmit wordsA wordsB i) :
    (x.1, x.2.1) ∈ wordsA.entries ∧ (x.1, x.2.2) ∈ wordsB.entries := by
  unfold directEmit at hx
  rw [List.mem_map] at hx
  obtain ⟨p, hp, rfl⟩ := hx
  rcases p with ⟨a, b⟩
  have h := List.of_mem_zip hp
  exact ⟨mem_entries_of_mem_uValues wordsA i a h.1, mem_entries_of_mem_uValues wordsB i b h.2⟩

theorem allEmit_stored (wordsA wordsB : Multimap) (i : Int) (x : Int × KeyPoint × KeyPoint)
    (hx : x ∈ allEmit wordsA wordsB i) :
    (x.1, x.2.1) ∈ wordsA.entries ∧ (x.1, x.2.2) ∈ wordsB.entries := by
  unfold allEmit at hx
  rw [List.mem_map] at hx
  obtain ⟨p, hp, rfl⟩ := hx
  rw [List.mem_flatMap] at hp
  obtain ⟨a, ha, hp⟩ := hp
  rw [List.mem_map] at hp
  obtain ⟨b, hb, rfl⟩ := hp
  exact ⟨mem_entries_of_mem_uValues wordsA i a ha, mem_entries_of_mem_uValues wordsB i b hb⟩

/-- The word id at a position is the id under which both keypoints of the
correspondence at that position are stored, for emissions that have this property. -/
theorem stored_of_get? (wordsA wordsB : Multimap)
    (emit : Int → List (Int × KeyPoint × KeyPoint)) (l : List Int)
    (hst : ∀ i x, x ∈ emit i → (x.1, x.2.1) ∈ wordsA.entries ∧ (x.1, x.2.2) ∈ wordsB.entries)
    (n : Nat) (id : Int) (p : KeyPoint × KeyPoint)
    (h1 : ((l.flatMap emit).map Prod.fst).get? n = some id)
    (h2 : ((l.flatMap emit).map Prod.snd).get? n = some p) :
    (id, p.1) ∈ wordsA.entries ∧ (id, p.2) ∈ wordsB.entries := by
  have hm := mem_zip_of_get? _ _ n id p h1 h2
  have hz : l.flatMap emit =
      ((l.flatMap emit).map Prod.fst).zip ((l.flatMap emit).map Prod.snd) :=
    List.zip_of_prod rfl rfl
  rw [← hz, List.mem_flatMap] at hm
  obtain ⟨i, _, hx⟩ := hm
  exact hst i (id, p) hx

theorem doEpipolarGeometry_isSome (self : HypVerificatorEpipolarGeo) (est : Estimator)
    (ssA ssB : KeypointSignature)
    (hflags : (correspondences ssA ssB).length ≤ (estimatorResult self est ssA ssB).status.length) :
    ∃ r, doEpipolarGeometry self est (some ssA) (some ssB) = some r := by
  by_cases hcount : self.matchCountMinAccepted ≤ ((correspondences ssA ssB).length : Int)
  · by_cases hfound : fundMatFound (estimatorResult self est ssA ssB).fundamentalMatrix = true
    · exact ⟨_, doEpipolarGeometry_found self est ssA ssB hcount hfound hflags⟩
    · exact ⟨_, doEpipolarGeometry_notFound self est ssA ssB (by simpa using hfound)⟩
  · exact ⟨_, doEpipolarGeometry_tooFew self est ssA ssB (not_le.1 hcount)⟩

/-! ## The claims -/

/-- C1: for keypoint-bearing observations, when the estimator's model is found
(3x3 and not all zero), the number of one-to-one correspondences is at least the
minimum match count and the estimator returns an inlier flag for every correspondence,
the epipolar `verify` returns `true` exactly when the accepted inlier count
(correspondences that survive the deduplication pass and whose flag is set) is at
least the minimum match count, and `false` exactly when it is below; a count equal
to the minimum accepts and a count one below rejects. -/
theorem verify_accepts_iff_enough_inliers (self : HypVerificatorEpipolarGeo) (est : Estimator)
    (ssRef ssHyp : KeypointSignature)
    (hfound : fundMatFound (estimatorResult self est ssHyp ssRef).fundamentalMatrix = true)
    (hcount : self.matchCountMinAccepted ≤ ((correspondences ssHyp ssRef).length : Int))
    (hflags : (correspondences ssHyp ssRef).length ≤
      (estimatorResult self est ssHyp ssRef).status.length) :
    (verify self est (some (Signature.keypoint ssRef)) (some (Signature.keypoint ssHyp)) = some true ↔
        self.matchCountMinAccepted ≤ (acceptedInliers self est ssHyp ssRef : Int)) ∧
    (verify self est (some (Signature.keypoint ssRef)) (some (Signature.keypoint ssHyp)) = some false ↔
        (acceptedInliers self est ssHyp ssRef : Int) < self.matchCountMinAccepted) ∧
    ((acceptedInliers self est ssHyp ssRef : Int) = self.matchCountMinAccepted →
        verify self est (some (Signature.keypoint ssRef)) (some (Signature.keypoint ssHyp)) =
          some true) ∧
    ((acceptedInliers self est ssHyp ssRef : Int) = self.matchCountMinAccepted - 1 →
        verify self est (some (Signature.keypoint ssRef)) (some (Signature.keypoint ssHyp)) =
          some false) := by
  rw [verify_keypoint, doEpipolarGeometry_found self est ssHyp ssRef hcount hfound hflags]
  refine ⟨?_, ?_, ?_, ?_⟩
  · simp
  · simp
  · intro h; simp [h]
  · intro h; simp [h]

/-- Witness of C1: on the example word maps with a minimum of two matches and an
estimator that flags both correspondences, the hypotheses hold and the hypothesis
is accepted with an accepted inlier count of exactly two. -/
theorem verify_accepts_iff_enough_inliers_witness :
    fundMatFound (estimatorResult (exampleVerifier 2) exampleEstimator
      exampleSignatureA exampleSignatureB).fundamentalMatrix = true ∧
    (acceptedInliers (exampleVerifier 2) exampleEstimator exampleSignatureA exampleSignatureB : Int)
      = (exampleVerifier 2).matchCountMinAccepted ∧
    verify (exampleVerifier 2) exampleEstimator (some (Signature.keypoint exampleSignatureB))
      (some (Signature.keypoint exampleSignatureA)) = some true :=
  ⟨by decide, by decide,
    (verify_accepts_iff_enough_inliers (exampleVerifier 2) exampleEstimator exampleSignatureB
      exampleSignatureA (by decide) (by decide) (by decide)).2.2.1 (by decide)⟩

/-- C2: when the number of one-to-one correspondences of two keypoint-bearing
observations is strictly below the minimum match count, the epipolar `verify`
returns `false` for every estimator: the result does not depend on the estimator. -/
theorem verify_rejects_too_few_correspondences (self : HypVerificatorEpipolarGeo)
    (ssRef ssHyp : KeypointSignature)
    (hcount : ((correspondences ssHyp ssRef).length : Int) < self.matchCountMinAccepted) :
    ∀ est : Estimator,
      verify self est (some (Signature.keypoint ssRef)) (some (Signature.keypoint ssHyp)) =
        some false := by
  intro est
  rw [verify_keypoint]
  exact doEpipolarGeometry_tooFew self est ssHyp ssRef hcount

/-- Witness of C2: the example word maps give two correspondences; with a minimum
of three the hypothesis is rejected, also by an estimator that would accept. -/
theorem verify_rejects_too_few_correspondences_witness :
    ((correspondences exampleSignatureA exampleSignatureB).length : Int) <
      (exampleVerifier 3).matchCountMinAccepted ∧
    verify (exampleVerifier 3) exampleEstimator (some (Signature.keypoint exampleSignatureB))
      (some (Signature.keypoint exampleSignatureA)) = some false :=
  ⟨by decide,
    verify_rejects_too_few_correspondences (exampleVerifier 3) exampleSignatureB
      exampleSignatureA (by decide) exampleEstimator⟩

/-- C3: if the matrix returned by the estimator is not 3x3, or has all nine entries
zero, the epipolar `verify` returns `false`, whatever the inlier flags and the
minimum match count. -/
theorem verify_rejects_model_not_found (self : HypVerificatorEpipolarGeo) (est : Estimator)
    (ssRef ssHyp : KeypointSignature)
    (hzero : (estimatorResult self est ssHyp ssRef).fundamentalMatrix.rows ≠ 3 ∨
      (estimatorResult self est ssHyp ssRef).fundamentalMatrix.cols ≠ 3 ∨
      ∀ r c : Nat, r < 3 → c < 3 →
        (estimatorResult self est ssHyp ssRef).fundamentalMatrix.data r c = 0) :
    verify self est (some (Signature.keypoint ssRef)) (some (Signature.keypoint ssHyp)) =
      some false := by
  rw [verify_keypoint]
  apply doEpipolarGeometry_notFound
  unfold fundMatFound
  rw [decide_eq_false_iff_not]
  rintro ⟨hc, hr, hnz⟩
  rcases hzero with h | h | h
  · exact h hr
  · exact h hc
  · have h00 := h 0 0 (by decide) (by decide)
    have h01 := h 0 1 (by decide) (by decide)
    have h02 := h 0 2 (by decide) (by decide)
    have h10 := h 1 0 (by decide) (by decide)
    have h11 := h 1 1 (by decide) (by decide)
    have h12 := h 1 2 (by decide) (by decide)
    have h20 := h 2 0 (by decide) (by decide)
    have h21 := h 2 1 (by decide) (by decide)
    have h22 := h 2 2 (by decide) (by decide)
    simp [h00, h01, h02, h10, h11, h12, h20, h21, h22] at hnz

/-- Witness of C3: on the example word maps, with no minimum to reach and every
flag set, an estimator returning the zero matrix makes `verify` reject. -/
theorem verify_rejects_model_not_found_witness :
    (∀ r c : Nat, r < 3 → c < 3 →
      (estimatorResult (exampleVerifier 0) failingEstimator exampleSignatureA
        exampleSignatureB).fundamentalMatrix.data r c = 0) ∧
    verify (exampleVerifier 0) failingEstimator (some (Signature.keypoint exampleSignatureB))
      (some (Signature.keypoint exampleSignatureA)) = some false :=
  ⟨fun _ _ _ _ => rfl,
    verify_rejects_model_not_found (exampleVerifier 0) failingEstimator exampleSignatureB
      exampleSignatureA (Or.inr (Or.inr (fun _ _ _ _ => rfl)))⟩

/-- C4, as stated, fails: in `dedupExamplePairs` the correspondences at positions 1
and 2 share their A-point; the one at position 1 is skipped because its B-point was
recorded by position 0, so its A-point is never recorded, and the one at position 2
is counted: the count goes from 1 to 2 in the third iteration and the third
correspondence is among the inliers. -/
theorem dedup_later_duplicate_counted :
    (dedupExamplePairs.get? 1).map (fun p => p.1.pt) =
      (dedupExamplePairs.get? 2).map (fun p => p.1.pt) ∧
    (stateAfter [1, 1, 1] [1, 2, 3] dedupExamplePairs 2).map (fun st => st.goodCount) = some 1 ∧
    (stateAfter [1, 1, 1] [1, 2, 3] dedupExamplePairs 3).map (fun st => st.goodCount) = some 2 ∧
    (stateAfter [1, 1, 1] [1, 2, 3] dedupExamplePairs 3).map (fun st => st.inliers) =
      some [(keyPointAt 1 0, keyPointAt 11 0), (keyPointAt 2 0, keyPointAt 12 0)] := by
  decide

/-- C4, amended: if the correspondences at positions `i < j` share the same A-point
position and the one at position `i` survives the deduplication (it is the first
correspondence, or neither of its points had been recorded), then the iteration at
position `j` leaves the accepted inlier count and the inlier lists unchanged: the
correspondence at `j` is never counted, whatever the inlier flags. -/
theorem dedup_same_A_point_not_counted (status : List Nat) (pairsId : List Int)
    (pairs : List (KeyPoint × KeyPoint)) (i j : Nat) (p q : KeyPoint × KeyPoint)
    (hij : i < j) (hp : pairs.get? i = some p) (hq : pairs.get? j = some q)
    (hs : pairs.length ≤ status.length) (hid : pairs.length ≤ pairsId.length)
    (hsame : p.1.pt = q.1.pt)
    (hsurv : i = 0 ∨ survivesAt status pairsId pairs i = true) :
    ∃ st st1, stateAfter status pairsId pairs j = some st ∧
      stateAfter status pairsId pairs (j + 1) = some st1 ∧
      st1.goodCount = st.goodCount ∧ st1.inliers = st.inliers ∧
      st1.inliersId = st.inliersId := by
  have hjlen : j < pairs.length := by
    rw [List.get?_eq_getElem?] at hq
    exact (List.getElem?_eq_some_iff.1 hq).1
  have hilen : i < pairs.length := by omega
  obtain ⟨sti, hsti, hii⟩ := stateAfter_some status pairsId pairs i (by omega) hs hid
  obtain ⟨sti1, hsti1, _⟩ := stateAfter_some status pairsId pairs (i + 1) (by omega) hs hid
  obtain ⟨stj, hstj, _⟩ := stateAfter_some status pairsId pairs j (by omega) hs hid
  -- the correspondence at `i` reaches the last branch
  have hsurv1 : ¬ (p.1.pt.x, p.1.pt.y) ∈ sti.ptsAddedA ∧ ¬ (p.2.pt.x, p.2.pt.y) ∈ sti.ptsAddedB := by
    rcases hsurv with h0 | h
    · subst h0
      have : sti = LoopState.init := by
        have h := hsti
        simp only [stateAfter, List.take_zero, countingLoop] at h
        exact (Option.some.inj h).symm
      rw [this]
      simp [LoopState.init]
    · unfold survivesAt at h
      rw [hsti, hp] at h
      simp only [Bool.and_eq_true, Bool.not_eq_true', ← Bool.not_eq_true, uContains_iff] at h
      exact h
  -- hence its A-point is recorded after iteration `i`
  have hrec : (p.1.pt.x, p.1.pt.y) ∈ sti1.ptsAddedA := by
    obtain ⟨st0, hb, _, hpa, _⟩ := loopBody_keep status pairsId sti p (by omega) (by omega)
      hsurv1.1 hsurv1.2
    have hsucc := stateAfter_succ status pairsId pairs i p hp
    rw [hsti, hsti1] at hsucc
    simp only [Option.bind] at hsucc
    rw [hb] at hsucc
    cases hsucc
    rw [hpa]
    exact List.mem_append_right _ (List.mem_singleton_self _)
  -- and is still recorded before iteration `j`
  have hrecj : (q.1.pt.x, q.1.pt.y) ∈ stj.ptsAddedA := by
    rw [← hsame]
    exact stateAfter_mono status pairsId pairs (i + 1) j (by omega) sti1 stj hsti1 hstj _ hrec
  refine ⟨stj, { stj with i := stj.i + 1 }, hstj, ?_, rfl, rfl, rfl⟩
  rw [stateAfter_succ status pairsId pairs j q hq, hstj]
  simp only [Option.bind]
  exact loopBody_skip status pairsId stj q (Or.inl hrecj)

/-- Witness of the amended C4: two correspondences sharing their A-point, both
flagged as inliers; the first survives and the second is not counted. -/
theorem dedup_same_A_point_not_counted_witness :
    ∃ st st1,
      stateAfter [1, 1] [7, 8] [(keyPointAt 1 0, keyPointAt 11 0), (keyPointAt 1 0, keyPointAt 12 0)] 1
        = some st ∧
      stateAfter [1, 1] [7, 8] [(keyPointAt 1 0, keyPointAt 11 0), (keyPointAt 1 0, keyPointAt 12 0)] 2
        = some st1 ∧
      st1.goodCount = st.goodCount ∧ st1.inliers = st.inliers ∧ st1.inliersId = st.inliersId :=
  dedup_same_A_point_not_counted [1, 1] [7, 8]
    [(keyPointAt 1 0, keyPointAt 11 0), (keyPointAt 1 0, keyPointAt 12 0)] 0 1
    (keyPointAt 1 0, keyPointAt 11 0) (keyPointAt 1 0, keyPointAt 12 0)
    (by decide) rfl rfl (by decide) (by decide) rfl (Or.inl rfl)

/-- C5: one-to-one pairing emits exactly one correspondence for each word id with
exactly one keypoint in A and exactly one keypoint in B, pairing those two
keypoints, and none for any other word id: there is one word id per correspondence,
a word id occurs once among them if it has one keypoint on each side and not at all
otherwise, and a correspondence `(a, b)` is emitted under word id `id` exactly when
`a` is the only keypoint of `id` in A and `b` the only keypoint of `id` in B. For
A=[1,2,3,4,6,6], B=[1,1,2,4,5,6,6] the correspondences are those of ids 2 and 4. -/
theorem findPairsOne_emits_unique_ids :
    (∀ (wordsA wordsB : Multimap) (pairs0 : List (KeyPoint × KeyPoint)),
      (findPairsOne wordsA wordsB pairs0 []).pairs.length =
        (findPairsOne wordsA wordsB pairs0 []).pairsId.length ∧
      (∀ id : Int, (findPairsOne wordsA wordsB pairs0 []).pairsId.count id =
        if (keypointsOf wordsA id).length = 1 ∧ (keypointsOf wordsB id).length = 1 then 1
        else 0) ∧
      (∀ (id : Int) (a b : KeyPoint),
        (id, (a, b)) ∈ (findPairsOne wordsA wordsB pairs0 []).pairsId.zip
            (findPairsOne wordsA wordsB pairs0 []).pairs ↔
          keypointsOf wordsA id = [a] ∧ keypointsOf wordsB id = [b])) ∧
    (findPairsOne exampleA exampleB [] []).pairsId = [2, 4] ∧
    (findPairsOne exampleA exampleB [] []).pairs =
      [(keyPointAt 2 0, keyPointAt 12 0), (keyPointAt 4 0, keyPointAt 14 0)] := by
  refine ⟨?_, by decide, by decide⟩
  intro wordsA wordsB pairs0
  exact ⟨(findPairsOne_length wordsA wordsB pairs0).symm,
    findPairsOne_count wordsA wordsB pairs0, findPairsOne_mem wordsA wordsB pairs0⟩

/-- C6, evaluated on the code: for A=[1,2,3,4,6,6], B=[1,1,2,4,5,6,6] the sum over
the word ids of `min(|A_id|, |B_id|)` is 5, the value announced by the comment
above `findPairsOne`, but `findPairsOne` returns 4: word id 1, with one keypoint in
A and two in B, falls in neither branch of the loop body and adds nothing. -/
theorem findPairsOne_realPairsCount_example :
    (findPairsOne exampleA exampleB [] []).realPairsCount = 4 ∧
    sumMinCounts exampleA exampleB = 5 ∧
    (keypointsOf exampleA 1).length = 1 ∧ (keypointsOf exampleB 1).length = 2 ∧
    oneCount exampleA exampleB 1 = 0 := by
  decide

/-- C7: direct pairing emits, for each word id, exactly `min(|A_id|, |B_id|)`
correspondences, the k-th pairing A's k-th keypoint of that id with B's k-th
keypoint of that id (the correspondences of a word id, in order, are the keypoint
lists of the two sides zipped), and the returned real-pair count is the number of
emitted correspondences. For A=[1,2,3,4,6,6], B=[1,1,2,4,5,6,6] the correspondences
are at ids 1,2,4,6,6 and the real-pair count is 5. -/
theorem findPairsDirect_lockstep :
    (∀ (wordsA wordsB : Multimap) (pairs0 : List (KeyPoint × KeyPoint)),
      (findPairsDirect wordsA wordsB pairs0 []).pairs.length =
        (findPairsDirect wordsA wordsB pairs0 []).pairsId.length ∧
      (∀ id : Int, (findPairsDirect wordsA wordsB pairs0 []).pairsId.count id =
        min (keypointsOf wordsA id).length (keypointsOf wordsB id).length) ∧
      (∀ id : Int,
        ((findPairsDirect wordsA wordsB pairs0 []).pairsId.zip
            (findPairsDirect wordsA wordsB pairs0 []).pairs).filter
            (fun x => decide (x.1 = id)) =
          ((keypointsOf wordsA id).zip (keypointsOf wordsB id)).map (fun p => (id, p))) ∧
      (findPairsDirect wordsA wordsB pairs0 []).realPairsCount =
        ((findPairsDirect wordsA wordsB pairs0 []).pairs.length : Int)) ∧
    (findPairsDirect exampleA exampleB [] []).pairsId = [1, 2, 4, 6, 6] ∧
    (findPairsDirect exampleA exampleB [] []).pairs =
      [(keyPointAt 1 0, keyPointAt 11 0), (keyPointAt 2 0, keyPointAt 12 0),
       (keyPointAt 4 0, keyPointAt 14 0), (keyPointAt 6 0, keyPointAt 16 0),
       (keyPointAt 6 1, keyPointAt 16 1)] ∧
    (findPairsDirect exampleA exampleB [] []).realPairsCount = 5 := by
  refine ⟨?_, by decide, by decide, by decide⟩
  intro wordsA wordsB pairs0
  refine ⟨?_, ?_, ?_, ?_⟩
  · rw [findPairsDirect_eq]; simp
  · intro id
    have h := findPairsDirect_filter wordsA wordsB id
    rw [findPairsDirect_eq]
    simp only [List.nil_append]
    rw [count_map_fst, h]
    simp
  · intro id
    rw [findPairsDirect_zip]
    exact findPairsDirect_filter wordsA wordsB id
  · rw [findPairsDirect_eq]
    simp only
    rw [sum_length_flatMap]
    simp

/-- C8: all-pairs pairing emits, for each word id, every combination of one of A's
keypoints with one of B's keypoints of that id, A-major (`|A_id| * |B_id|`
correspondences), and returns as real-pair count the sum over the word ids of
`min(|A_id|, |B_id|)`. For A=[1,2,3,4,6,6], B=[1,1,2,4,5,6,6] the result is
[(1,1a) (1,1b) (2,2) (4,4) (6a,6a) (6a,6b) (6b,6a) (6b,6b)] with real-pair count 5. -/
theorem findPairsAll_cross_product :
    (∀ (wordsA wordsB : Multimap) (pairs0 : List (KeyPoint × KeyPoint)),
      (findPairsAll wordsA wordsB pairs0 []).pairs.length =
        (findPairsAll wordsA wordsB pairs0 []).pairsId.length ∧
      (∀ id : Int, (findPairsAll wordsA wordsB pairs0 []).pairsId.count id =
        (keypointsOf wordsA id).length * (keypointsOf wordsB id).length) ∧
      (∀ id : Int,
        ((findPairsAll wordsA wordsB pairs0 []).pairsId.zip
            (findPairsAll wordsA wordsB pairs0 []).pairs).filter
            (fun x => decide (x.1 = id)) =
          ((keypointsOf wordsA id).flatMap
            (fun a => (keypointsOf wordsB id).map (fun b => (a, b)))).map (fun p => (id, p))) ∧
      (findPairsAll wordsA wordsB pairs0 []).realPairsCount = sumMinCounts wordsA wordsB) ∧
    (findPairsAll exampleA exampleB [] []).pairsId = [1, 1, 2, 4, 6, 6, 6, 6] ∧
    (findPairsAll exampleA exampleB [] []).pairs =
      [(keyPointAt 1 0, keyPointAt 11 0), (keyPointAt 1 0, keyPointAt 11 1),
       (keyPointAt 2 0, keyPointAt 12 0), (keyPointAt 4 0, keyPointAt 14 0),
       (keyPointAt 6 0, keyPointAt 16 0), (keyPointAt 6 0, keyPointAt 16 1),
       (keyPointAt 6 1, keyPointAt 16 0), (keyPointAt 6 1, keyPointAt 16 1)] ∧
    (findPairsAll exampleA exampleB [] []).realPairsCount = 5 := by
  refine ⟨?_, by decide, by decide, by decide⟩
  intro wordsA wordsB pairs0
  refine ⟨?_, ?_, ?_, ?_⟩
  · rw [findPairsAll_eq]; simp
  · intro id
    have h := findPairsAll_filter wordsA wordsB id
    rw [findPairsAll_eq]
    simp only [List.nil_append]
    rw [count_map_fst, h, List.length_map, length_product]
  · intro id
    rw [findPairsAll_zip]
    exact findPairsAll_filter wordsA wordsB id
  · rw [findPairsAll_eq]
    exact sum_allCount_eq wordsA wordsB

/-- C9, as stated, fails: on A=[1,2,3,4,6,6], B=[1,1,2,4,5,6,6] all-pairs pairing
yields 8 correspondences, not 7 (word id 1 has one keypoint in A and two in B, hence
two combinations). -/
theorem findPairsAll_example_not_seven_pairs :
    (findPairsAll exampleA exampleB [] []).pairs.length = 8 ∧
    (findPairsAll exampleA exampleB [] []).pairs.length ≠ 7 := by
  decide

/-- C9, amended: on A=[1,2,3,4,6,6], B=[1,1,2,4,5,6,6] all-pairs pairing yields a
correspondence count of 8 = 2 (id 1) + 1 (id 2) + 1 (id 4) + 4 (id 6), with
real-pair count 5. -/
theorem findPairsAll_example_eight_pairs :
    (findPairsAll exampleA exampleB [] []).pairs.length = 8 ∧
    (findPairsAll exampleA exampleB [] []).pairsId.count 1 = 2 ∧
    (findPairsAll exampleA exampleB [] []).pairsId.count 2 = 1 ∧
    (findPairsAll exampleA exampleB [] []).pairsId.count 4 = 1 ∧
    (findPairsAll exampleA exampleB [] []).pairsId.count 6 = 4 ∧
    (findPairsAll exampleA exampleB [] []).realPairsCount = 5 := by
  decide

/-- C10: the epipolar `verify(reference, hypothesis)` returns `false`, for every
estimator, when either observation is null or is not a `KeypointSignature`;
otherwise its result is that of `doEpipolarGeometry` run with the hypothesis as A
and the reference as B, whose correspondences are the one-to-one pairs of the
hypothesis's word map with the reference's word map. -/
theorem verify_requires_keypoint_signatures (self : HypVerificatorEpipolarGeo) :
    (∀ (est : Estimator) (other : Option Signature),
      verify self est none other = some false ∧ verify self est other none = some false) ∧
    (∀ (est : Estimator) (other : Option Signature) (id : Int),
      verify self est (some (Signature.plain id)) other = some false ∧
      verify self est other (some (Signature.plain id)) = some false) ∧
    (∀ (est : Estimator) (ssRef ssHyp : KeypointSignature),
      verify self est (some (Signature.keypoint ssRef)) (some (Signature.keypoint ssHyp)) =
        doEpipolarGeometry self est (some ssHyp) (some ssRef) ∧
      correspondences ssHyp ssRef = (findPairsOne ssHyp.words ssRef.words [] []).pairs) := by
  refine ⟨?_, ?_, ?_⟩
  · intro est other
    constructor
    · rfl
    · rcases other with _ | ⟨_ | _⟩ <;> rfl
  · intro est other id
    constructor
    · rfl
    · rcases other with _ | ⟨_ | _⟩ <;> rfl
  · intro est ssRef ssHyp
    exact ⟨rfl, rfl⟩

/-- C11: the base strategy's `verify(reference, hypothesis)` returns `true` if and
only if both observations are non-null and neither is flagged as a bad signature;
it returns `false` whenever either observation is absent. -/
theorem base_verify_iff (isBadSignature : Signature → Bool) :
    (∀ ref hyp : Option Signature,
      HypVerificator.verify isBadSignature ref hyp = true ↔
        ∃ r h, ref = some r ∧ hyp = some h ∧
          isBadSignature r = false ∧ isBadSignature h = false) ∧
    (∀ other : Option Signature,
      HypVerificator.verify isBadSignature none other = false ∧
      HypVerificator.verify isBadSignature other none = false) := by
  constructor
  · intro ref hyp
    cases ref with
    | none => simp [HypVerificator.verify]
    | some r =>
      cases hyp with
      | none => simp [HypVerificator.verify]
      | some h => simp [HypVerificator.verify]
  · intro other
    constructor
    · rfl
    · cases other <;> rfl

/-- C12: the similarity strategy's `verify(reference, hypothesis)` returns `false`
whenever either observation is null, and otherwise returns `true` if and only if the
similarity score of the reference compared to the hypothesis is at least the
threshold; a score equal to the threshold accepts. -/
theorem similarity_verify_iff (self : HypVerificatorSim)
    (compareTo : Signature → Signature → Scalar) :
    (∀ other : Option Signature,
      HypVerificatorSim.verify self compareTo none other = false ∧
      HypVerificatorSim.verify self compareTo other none = false) ∧
    (∀ r h : Signature,
      (HypVerificatorSim.verify self compareTo (some r) (some h) = true ↔
        self.similarity ≤ compareTo r h) ∧
      (compareTo r h = self.similarity →
        HypVerificatorSim.verify self compareTo (some r) (some h) = true)) := by
  constructor
  · intro other
    constructor
    · rfl
    · cases other <;> rfl
  · intro r h
    constructor
    · simp [HypVerificatorSim.verify]
    · intro heq
      simp [HypVerificatorSim.verify, heq]

/-- Witness of C12: with threshold 5, a score of exactly 5 accepts and a score of 4
rejects. -/
theorem similarity_verify_iff_witness :
    HypVerificatorSim.verify { similarity := 5 } (fun _ _ => 5)
      (some (Signature.plain 1)) (some (Signature.plain 2)) = true ∧
    HypVerificatorSim.verify { similarity := 5 } (fun _ _ => 4)
      (some (Signature.plain 1)) (some (Signature.plain 2)) = false :=
  ⟨((similarity_verify_iff { similarity := 5 } (fun _ _ => 5)).2
      (Signature.plain 1) (Signature.plain 2)).2 rfl,
    by decide⟩

/-- C13: parsing a parameter table into the configuration of an epipolar verifier
changes only the fields whose key is present. A field whose key is missing keeps
its previous value, a field whose key is present receives the parsed value, two
tables that agree on the three keys give the same configuration, and removing from
the table every entry with another key changes nothing. -/
theorem parseParameters_frame (keys : ParameterKeys) (atoi : String → Int)
    (atof : String → Scalar) (self : HypVerificatorEpipolarGeo) (parameters : ParametersMap) :
    ((parseParameters keys atoi atof self parameters).matchCountMinAccepted =
      match parameters.find keys.kVhEpMatchCountMin with
      | some v => atoi v
      | none => self.matchCountMinAccepted) ∧
    ((parseParameters keys atoi atof self parameters).ransacParam1 =
      match parameters.find keys.kVhEpRansacParam1 with
      | some v => atof v
      | none => self.ransacParam1) ∧
    ((parseParameters keys atoi atof self parameters).ransacParam2 =
      match parameters.find keys.kVhEpRansacParam2 with
      | some v => atof v
      | none => self.ransacParam2) ∧
    (∀ other : ParametersMap,
      other.find keys.kVhEpMatchCountMin = parameters.find keys.kVhEpMatchCountMin →
      other.find keys.kVhEpRansacParam1 = parameters.find keys.kVhEpRansacParam1 →
      other.find keys.kVhEpRansacParam2 = parameters.find keys.kVhEpRansacParam2 →
      parseParameters keys atoi atof self other =
        parseParameters keys atoi atof self parameters) ∧
    parseParameters keys atoi atof self (parameters.filter (fun e => keys.reads e.1)) =
      parseParameters keys atoi atof self parameters := by
  refine ⟨?_, ?_, ?_, ?_, ?_⟩
  · unfold parseParameters
    cases parameters.find keys.kVhEpMatchCountMin <;>
      cases parameters.find keys.kVhEpRansacParam1 <;>
      cases parameters.find keys.kVhEpRansacParam2 <;> rfl
  · unfold parseParameters
    cases parameters.find keys.kVhEpMatchCountMin <;>
      cases parameters.find keys.kVhEpRansacParam1 <;>
      cases parameters.find keys.kVhEpRansacParam2 <;> rfl
  · unfold parseParameters
    cases parameters.find keys.kVhEpMatchCountMin <;>
      cases parameters.find keys.kVhEpRansacParam1 <;>
      cases parameters.find keys.kVhEpRansacParam2 <;> rfl
  · intro other h1 h2 h3
    exact parseParameters_congr keys atoi atof self other parameters h1 h2 h3
  · apply parseParameters_congr
    · exact lookup_filter keys.reads _ (by simp [ParameterKeys.reads]) parameters
    · exact lookup_filter keys.reads _ (by simp [ParameterKeys.reads]) parameters
    · exact lookup_filter keys.reads _ (by simp [ParameterKeys.reads]) parameters

/-- Witness of C13: a table holding the minimum match count and an unrelated key sets
the minimum and leaves both RANSAC parameters at their previous values; the
unrelated key can be dropped. -/
theorem parseParameters_frame_witness :
    parseParameters exampleKeys exampleAtoi exampleAtoi (exampleVerifier 20) exampleParameters =
      { matchCountMinAccepted := 7, ransacParam1 := 3, ransacParam2 := 1 } ∧
    parseParameters exampleKeys exampleAtoi exampleAtoi (exampleVerifier 20)
        [("VhEp/MatchCountMin", "1234567")] =
      parseParameters exampleKeys exampleAtoi exampleAtoi (exampleVerifier 20) exampleParameters :=
  ⟨by decide,
    (parseParameters_frame exampleKeys exampleAtoi exampleAtoi (exampleVerifier 20)
      exampleParameters).2.2.2.1 [("VhEp/MatchCountMin", "1234567")]
      (by decide) (by decide) (by decide)⟩

/-- C14: for each of the three pairing policies, word ids present in only one of
the two word maps contribute nothing: the emitted correspondences, their word ids
and the returned real-pair count are unchanged when all entries whose word id is
absent from the other map are removed from A and from B. -/
theorem pairing_ignores_unshared_ids (wordsA wordsB : Multimap)
    (pairs0 : List (KeyPoint × KeyPoint)) (ids0 : List Int) :
    findPairsDirect (wordsA.restrictTo wordsB) (wordsB.restrictTo wordsA) pairs0 ids0 =
      findPairsDirect wordsA wordsB pairs0 ids0 ∧
    findPairsOne (wordsA.restrictTo wordsB) (wordsB.restrictTo wordsA) pairs0 ids0 =
      findPairsOne wordsA wordsB pairs0 ids0 ∧
    findPairsAll (wordsA.restrictTo wordsB) (wordsB.restrictTo wordsA) pairs0 ids0 =
      findPairsAll wordsA wordsB pairs0 ids0 := by
  refine ⟨?_, ?_, ?_⟩
  · obtain ⟨h1, h2⟩ := restrict_emit_eq wordsA wordsB directEmit
      (fun a b i => ((directEmit a b i).length : Int))
      (fun a1 b1 a2 b2 i ha hb => by
        dsimp only
        unfold directEmit
        rw [ha, hb]
        exact ⟨rfl, rfl⟩)
      (fun a b i hb => by
        dsimp only
        unfold directEmit
        rw [hb]
        simp)
    rw [findPairsDirect_eq, findPairsDirect_eq, h1, h2]
  · obtain ⟨h1, h2⟩ := restrict_emit_eq wordsA wordsB oneEmit oneCount
      (fun a1 b1 a2 b2 i ha hb => by
        unfold oneEmit oneCount
        rw [ha, hb]
        exact ⟨rfl, rfl⟩)
      (fun a b i hb => by
        unfold oneEmit oneCount
        rw [hb]
        rcases uValues a i with _ | ⟨a1, _ | ⟨a2, ra⟩⟩ <;> simp)
    rw [findPairsOne_eq, findPairsOne_eq, h1, h2]
  · obtain ⟨h1, h2⟩ := restrict_emit_eq wordsA wordsB allEmit allCount
      (fun a1 b1 a2 b2 i ha hb => by
        unfold allEmit allCount
        rw [ha, hb]
        exact ⟨rfl, rfl⟩)
      (fun a b i hb => by
        unfold allEmit allCount
        rw [hb]
        simp)
    rw [findPairsAll_eq, findPairsAll_eq, h1, h2]

/-- C15: for each of the three pairing policies, started with an empty id list, the
word ids of the emitted correspondences are in ascending (non-decreasing) order;
for one-to-one pairing they are strictly increasing. -/
theorem pairsId_ascending (wordsA wordsB : Multimap) (pairs0 : List (KeyPoint × KeyPoint)) :
    (findPairsDirect wordsA wordsB pairs0 []).pairsId.Pairwise (fun a b => a ≤ b) ∧
    (findPairsOne wordsA wordsB pairs0 []).pairsId.Pairwise (fun a b => a ≤ b) ∧
    (findPairsAll wordsA wordsB pairs0 []).pairsId.Pairwise (fun a b => a ≤ b) ∧
    (findPairsOne wordsA wordsB pairs0 []).pairsId.Pairwise (fun a b => a < b) := by
  refine ⟨?_, ?_, ?_, ?_⟩
  · rw [findPairsDirect_eq]
    exact tagged_ids_sorted _ (directEmit_tag wordsA wordsB) _ (uUniqueKeys_sorted wordsA)
  · rw [findPairsOne_eq]
    exact tagged_ids_sorted _ (oneEmit_tag wordsA wordsB) _ (uUniqueKeys_sorted wordsA)
  · rw [findPairsAll_eq]
    exact tagged_ids_sorted _ (allEmit_tag wordsA wordsB) _ (uUniqueKeys_sorted wordsA)
  · exact (uUniqueKeys_sorted wordsA).sublist (findPairsOne_ids_sublist wordsA wordsB pairs0)

/-- C16: for every pair of word maps the real-pair count and the number of emitted
correspondences are both non-negative; for one-to-one pairing the number of
correspondences is at most the real-pair count, for direct pairing the two are
equal, and for all-pairs pairing the real-pair count is at most the number of
correspondences. -/
theorem pairing_counts_ordered (wordsA wordsB : Multimap)
    (pairs0 : List (KeyPoint × KeyPoint)) (ids0 : List Int) :
    (0 ≤ (findPairsOne wordsA wordsB pairs0 ids0).realPairsCount ∧
      0 ≤ ((findPairsOne wordsA wordsB pairs0 ids0).pairs.length : Int) ∧
      ((findPairsOne wordsA wordsB pairs0 ids0).pairs.length : Int) ≤
        (findPairsOne wordsA wordsB pairs0 ids0).realPairsCount) ∧
    (0 ≤ (findPairsDirect wordsA wordsB pairs0 ids0).realPairsCount ∧
      0 ≤ ((findPairsDirect wordsA wordsB pairs0 ids0).pairs.length : Int) ∧
      ((findPairsDirect wordsA wordsB pairs0 ids0).pairs.length : Int) =
        (findPairsDirect wordsA wordsB pairs0 ids0).realPairsCount) ∧
    (0 ≤ (findPairsAll wordsA wordsB pairs0 ids0).realPairsCount ∧
      0 ≤ ((findPairsAll wordsA wordsB pairs0 ids0).pairs.length : Int) ∧
      (findPairsAll wordsA wordsB pairs0 ids0).realPairsCount ≤
        ((findPairsAll wordsA wordsB pairs0 ids0).pairs.length : Int)) := by
  refine ⟨⟨?_, Int.natCast_nonneg _, ?_⟩, ⟨?_, Int.natCast_nonneg _, ?_⟩,
    ⟨?_, Int.natCast_nonneg _, ?_⟩⟩
  · rw [findPairsOne_eq]
    exact sum_map_nonneg _ _ (fun i _ => oneCount_nonneg wordsA wordsB i)
  · rw [findPairsOne_eq]
    simp only [List.length_map]
    rw [← sum_length_flatMap]
    exact sum_map_le _ _ _ (fun i _ => oneEmit_length_le wordsA wordsB i)
  · rw [findPairsDirect_eq]
    exact sum_map_nonneg _ _ (fun i _ => Int.natCast_nonneg _)
  · rw [findPairsDirect_eq]
    simp only [List.length_map]
    rw [sum_length_flatMap]
  · rw [findPairsAll_eq]
    exact sum_map_nonneg _ _ (fun i _ => allCount_nonneg wordsA wordsB i)
  · rw [findPairsAll_eq]
    simp only [List.length_map]
    rw [← sum_length_flatMap]
    exact sum_map_le _ _ _ (fun i _ => allCount_le_length wordsA wordsB i)

/-- C17: when the counting loop of the deduplication pass ends in the state `st`, the
correspondences counted as accepted inliers (`st.inliers`) have pairwise distinct
A-point positions and pairwise distinct B-point positions, each of them is a
correspondence of the input whose estimator flag is set, their number is the
accepted inlier count, and that count exceeds neither the number of correspondences
nor the number of set flags. -/
theorem counted_inliers_distinct (status : List Nat) (pairsId : List Int)
    (pairs : List (KeyPoint × KeyPoint)) (st : LoopState)
    (h : countingLoop status pairsId pairs LoopState.init = some st) :
    (st.inliers.map (fun p => p.1.pt)).Nodup ∧
    (st.inliers.map (fun p => p.2.pt)).Nodup ∧
    (∀ p ∈ st.inliers, ∃ n flag,
      pairs.get? n = some p ∧ status.get? n = some flag ∧ flag ≠ 0) ∧
    st.goodCount = (st.inliers.length : Int) ∧
    st.goodCount ≤ (pairs.length : Int) ∧
    st.goodCount ≤ ((status.countP (fun flag => decide (flag ≠ 0)) : Nat) : Int) := by
  obtain ⟨hnA, hnB, _, hcount⟩ := countingLoop_inliers_inv status pairsId pairs
    LoopState.init st h
    ⟨by simp [LoopState.init], by simp [LoopState.init], by simp [LoopState.init],
      by simp [LoopState.init]⟩
  obtain ⟨_, hle1, hle2⟩ := countingLoop_goodCount_le status pairsId pairs LoopState.init st h
  refine ⟨?_, ?_, ?_, hcount, ?_, ?_⟩
  · have hmap : st.inliers.map (fun p => (p.1.pt.x, p.1.pt.y)) =
        (st.inliers.map (fun p => p.1.pt)).map (fun q => (q.x, q.y)) := by
      rw [List.map_map]; rfl
    rw [hmap] at hnA
    exact List.Nodup.of_map _ hnA
  · have hmap : st.inliers.map (fun p => (p.2.pt.x, p.2.pt.y)) =
        (st.inliers.map (fun p => p.2.pt)).map (fun q => (q.x, q.y)) := by
      rw [List.map_map]; rfl
    rw [hmap] at hnB
    exact List.Nodup.of_map _ hnB
  · intro p hp
    rcases countingLoop_inliers_flagged status pairsId pairs LoopState.init st h p hp with
      hin | ⟨k, flag, hk, hf, hne⟩
    · simp [LoopState.init] at hin
    · refine ⟨k, flag, hk, ?_, hne⟩
      simpa [LoopState.init] using hf
  · simpa [LoopState.init] using hle1
  · simpa [LoopState.init] using hle2

/-- Witness of C17: on `dedupExamplePairs` with every flag set the loop ends with two
counted correspondences, with distinct A-points and distinct B-points. -/
theorem counted_inliers_distinct_witness :
    countingLoop [1, 1, 1] [1, 2, 3] dedupExamplePairs LoopState.init = some dedupExampleState ∧
    (dedupExampleState.inliers.map (fun p => p.1.pt)).Nodup ∧
    dedupExampleState.goodCount ≤ (dedupExamplePairs.length : Int) :=
  ⟨by decide,
    (counted_inliers_distinct [1, 1, 1] [1, 2, 3] dedupExamplePairs dedupExampleState
      (by decide)).1,
    (counted_inliers_distinct [1, 1, 1] [1, 2, 3] dedupExamplePairs dedupExampleState
      (by decide)).2.2.2.2.1⟩

/-- C18: the early rejection is redundant for the returned value. For every pair of
word maps, every minimum match count and every estimator that returns a flag for
every correspondence, `doEpipolarGeometry` returns the same boolean as the variant
without the check `pairsCount < minMatchCount`, and that boolean is: a model is
found and the accepted inlier count is at least the minimum match count. -/
theorem early_reject_redundant (self : HypVerificatorEpipolarGeo) (est : Estimator)
    (ssA ssB : KeypointSignature)
    (hflags : (correspondences ssA ssB).length ≤ (estimatorResult self est ssA ssB).status.length) :
    doEpipolarGeometry self est (some ssA) (some ssB) =
      doEpipolarGeometryNoEarlyReject self est (some ssA) (some ssB) ∧
    doEpipolarGeometry self est (some ssA) (some ssB) =
      some (fundMatFound (estimatorResult self est ssA ssB).fundamentalMatrix &&
        decide (self.matchCountMinAccepted ≤ (acceptedInliers self est ssA ssB : Int))) := by
  rw [doEpipolarGeometry_eq self est ssA ssB hflags,
    doEpipolarGeometryNoEarlyReject_eq self est ssA ssB hflags]
  exact ⟨rfl, rfl⟩

/-- Witness of C18: on the example word maps with a minimum of three matches the
early rejection fires; the variant without it runs the estimator, counts two
inliers and rejects as well. -/
theorem early_reject_redundant_witness :
    ((correspondences exampleSignatureA exampleSignatureB).length : Int) <
      (exampleVerifier 3).matchCountMinAccepted ∧
    doEpipolarGeometryNoEarlyReject (exampleVerifier 3) exampleEstimator
      (some exampleSignatureA) (some exampleSignatureB) = some false ∧
    doEpipolarGeometry (exampleVerifier 3) exampleEstimator (some exampleSignatureA)
        (some exampleSignatureB) =
      doEpipolarGeometryNoEarlyReject (exampleVerifier 3) exampleEstimator
        (some exampleSignatureA) (some exampleSignatureB) :=
  ⟨by decide, by decide,
    (early_reject_redundant (exampleVerifier 3) exampleEstimator exampleSignatureA
      exampleSignatureB (by decide)).1⟩

/-- C19: one-to-one pairing is symmetric in its two word maps: `findPairsOne(B, A)`
returns the same real-pair count and the same word ids as `findPairsOne(A, B)`, and
its correspondences are those of `findPairsOne(A, B)` in the same order with the two
keypoints of every pair swapped; so swapping reference and hypothesis hands the same
points to the estimator, on the other side. -/
theorem findPairsOne_symmetric (wordsA wordsB : Multimap)
    (pairs0 pairs1 : List (KeyPoint × KeyPoint)) (ids0 : List Int) :
    (findPairsOne wordsB wordsA pairs0 ids0).realPairsCount =
      (findPairsOne wordsA wordsB pairs1 ids0).realPairsCount ∧
    (findPairsOne wordsB wordsA pairs0 ids0).pairs =
      (findPairsOne wordsA wordsB pairs1 ids0).pairs.map Prod.swap ∧
    (findPairsOne wordsB wordsA pairs0 ids0).pairsId =
      (findPairsOne wordsA wordsB pairs1 ids0).pairsId ∧
    (∀ idA idB : Int,
      (correspondences { id := idB, words := wordsB } { id := idA, words := wordsA }).map
          (fun p => p.1.pt) =
        (correspondences { id := idA, words := wordsA } { id := idB, words := wordsB }).map
          (fun p => p.2.pt) ∧
      (correspondences { id := idB, words := wordsB } { id := idA, words := wordsA }).map
          (fun p => p.2.pt) =
        (correspondences { id := idA, words := wordsA } { id := idB, words := wordsB }).map
          (fun p => p.1.pt)) := by
  obtain ⟨h1, h2⟩ := findPairsOne_swap_emit wordsA wordsB
  refine ⟨?_, ?_, ?_, ?_⟩
  · rw [findPairsOne_eq, findPairsOne_eq]
    exact h2
  · rw [findPairsOne_eq, findPairsOne_eq]
    simp only [h1, List.map_map]
    rfl
  · rw [findPairsOne_eq, findPairsOne_eq]
    simp only [h1, List.map_map]
    rfl
  · intro idA idB
    unfold correspondences
    have h3 : (findPairsOne wordsB wordsA [] []).pairs =
        (findPairsOne wordsA wordsB [] []).pairs.map Prod.swap := by
      rw [findPairsOne_eq, findPairsOne_eq]
      simp only [h1, List.map_map]
      rfl
    simp only [h3, List.map_map]
    exact ⟨rfl, rfl⟩

/-- Witness of C19: the example word maps, paired in both orders. -/
theorem findPairsOne_symmetric_witness :
    (findPairsOne exampleB exampleA [] []).pairs =
      [(keyPointAt 12 0, keyPointAt 2 0), (keyPointAt 14 0, keyPointAt 4 0)] ∧
    (findPairsOne exampleB exampleA [] []).pairs =
      (findPairsOne exampleA exampleB [] []).pairs.map Prod.swap ∧
    (correspondences exampleSignatureB exampleSignatureA).map (fun p => p.1.pt) =
      (correspondences exampleSignatureA exampleSignatureB).map (fun p => p.2.pt) :=
  ⟨by decide, (findPairsOne_symmetric exampleA exampleB [] [] []).2.1,
    ((findPairsOne_symmetric exampleA exampleB [] [] []).2.2.2 1 2).1⟩

/-- C20: for each of the three pairing policies called with an empty id list, the id
list has the length of the correspondence list and its entry at a position is the
word id under which both keypoints of the correspondence at that position are stored
in A and in B. Consequently, in `doEpipolarGeometry` the lookup of `pairsId` at every
loop index is in range, and when the estimator returns a flag for every
correspondence so is the lookup of the flag: the counting loop and
`doEpipolarGeometry` return a result. -/
theorem pairsId_indexes_pairs (self : HypVerificatorEpipolarGeo) (est : Estimator)
    (ssA ssB : KeypointSignature) (pairs0 : List (KeyPoint × KeyPoint)) :
    ((findPairsDirect ssA.words ssB.words pairs0 []).pairsId.length =
        (findPairsDirect ssA.words ssB.words pairs0 []).pairs.length ∧
      ∀ (n : Nat) (id : Int) (p : KeyPoint × KeyPoint),
        (findPairsDirect ssA.words ssB.words pairs0 []).pairsId.get? n = some id →
        (findPairsDirect ssA.words ssB.words pairs0 []).pairs.get? n = some p →
        (id, p.1) ∈ ssA.words.entries ∧ (id, p.2) ∈ ssB.words.entries) ∧
    ((findPairsOne ssA.words ssB.words pairs0 []).pairsId.length =
        (findPairsOne ssA.words ssB.words pairs0 []).pairs.length ∧
      ∀ (n : Nat) (id : Int) (p : KeyPoint × KeyPoint),
        (findPairsOne ssA.words ssB.words pairs0 []).pairsId.get? n = some id →
        (findPairsOne ssA.words ssB.words pairs0 []).pairs.get? n = some p →
        (id, p.1) ∈ ssA.words.entries ∧ (id, p.2) ∈ ssB.words.entries) ∧
    ((findPairsAll ssA.words ssB.words pairs0 []).pairsId.length =
        (findPairsAll ssA.words ssB.words pairs0 []).pairs.length ∧
      ∀ (n : Nat) (id : Int) (p : KeyPoint × KeyPoint),
        (findPairsAll ssA.words ssB.words pairs0 []).pairsId.get? n = some id →
        (findPairsAll ssA.words ssB.words pairs0 []).pairs.get? n = some p →
        (id, p.1) ∈ ssA.words.entries ∧ (id, p.2) ∈ ssB.words.entries) ∧
    (∀ n : Nat, n < (correspondences ssA ssB).length →
      ∃ id, uValueAt (findPairsOne ssA.words ssB.words [] []).pairsId n = some id) ∧
    ((correspondences ssA ssB).length ≤ (estimatorResult self est ssA ssB).status.length →
      (∀ n : Nat, n < (correspondences ssA ssB).length →
        ∃ flag, (estimatorResult self est ssA ssB).status.get? n = some flag) ∧
      (∃ st, countingLoop (estimatorResult self est ssA ssB).status
        (findPairsOne ssA.words ssB.words [] []).pairsId (correspondences ssA ssB)
        LoopState.init = some st) ∧
      ∃ r, doEpipolarGeometry self est (some ssA) (some ssB) = some r) := by
  refine ⟨⟨?_, ?_⟩, ⟨?_, ?_⟩, ⟨?_, ?_⟩, ?_, ?_⟩
  · rw [findPairsDirect_eq]; simp
  · intro n id p h1 h2
    rw [findPairsDirect_eq] at h1 h2
    simp only [List.nil_append] at h1 h2
    exact stored_of_get? ssA.words ssB.words _ _ (directEmit_stored ssA.words ssB.words)
      n id p h1 h2
  · exact findPairsOne_length ssA.words ssB.words pairs0
  · intro n id p h1 h2
    rw [findPairsOne_eq] at h1 h2
    simp only [List.nil_append] at h1 h2
    exact stored_of_get? ssA.words ssB.words _ _ (oneEmit_stored ssA.words ssB.words)
      n id p h1 h2
  · rw [findPairsAll_eq]; simp
  · intro n id p h1 h2
    rw [findPairsAll_eq] at h1 h2
    simp only [List.nil_append] at h1 h2
    exact stored_of_get? ssA.words ssB.words _ _ (allEmit_stored ssA.words ssB.words)
      n id p h1 h2
  · intro n hn
    have hlen := findPairsOne_length ssA.words ssB.words []
    unfold correspondences at hn
    unfold uValueAt
    exact ⟨_, List.get?_eq_get (by omega)⟩
  · intro hflags
    refine ⟨?_, ?_, doEpipolarGeometry_isSome self est ssA ssB hflags⟩
    · intro n hn
      exact ⟨_, List.get?_eq_get (by omega)⟩
    · have hlen := findPairsOne_length ssA.words ssB.words []
      obtain ⟨st, hst, _⟩ := countingLoop_some (estimatorResult self est ssA ssB).status
        (findPairsOne ssA.words ssB.words [] []).pairsId (correspondences ssA ssB)
        LoopState.init (by simpa [LoopState.init] using hflags)
        (by simp only [LoopState.init, correspondences]; omega)
      exact ⟨st, hst⟩

/-- Witness of C20: on the example word maps the two word ids of the one-to-one
correspondences are 2 and 4, the flags cover both correspondences and
`doEpipolarGeometry` returns a result. -/
theorem pairsId_indexes_pairs_witness :
    (correspondences exampleSignatureA exampleSignatureB).length ≤
      (estimatorResult (exampleVerifier 2) exampleEstimator exampleSignatureA
        exampleSignatureB).status.length ∧
    (findPairsOne exampleA exampleB [] []).pairsId.get? 1 = some 4 ∧
    ((4 : Int), keyPointAt 4 0) ∈ exampleA.entries ∧
    ∃ r, doEpipolarGeometry (exampleVerifier 2) exampleEstimator (some exampleSignatureA)
      (some exampleSignatureB) = some r :=
  ⟨by decide, by decide,
    ((pairsId_indexes_pairs (exampleVerifier 2) exampleEstimator exampleSignatureA
      exampleSignatureB []).2.1.2 1 4 (keyPointAt 4 0, keyPointAt 14 0)
      (by decide) (by decide)).1,
    ((pairsId_indexes_pairs (exampleVerifier 2) exampleEstimator exampleSignatureA
      exampleSignatureB []).2.2.2.2 (by decide)).2.2⟩

end rtabmap
